import Mathlib

/-!
# Shallow embedding of the cms_topn count-min sketch extension

This file models the algorithmic core of the repository: the count-min
sketch with an attached top-n tracker (src/cms_topn.c, with near-identical
historical copies in src/cms.c and src/cms_mms.c) and the min-mask sketch
variant (src/cms_mms.c).

Modelling conventions:

* Machine integers: the unsigned 64-bit counters (typedef uint64 Frequency)
  are represented as Nat, with the wrap-around of C unsigned arithmetic
  written explicitly as a remainder by 2 ^ 64 exactly where the source
  expression can exceed 64 bits (hash-lane combination, minFrequency + 1,
  elementwise sums in unions).  MAX_FREQUENCY mirrors ULONG_MAX.
* The flexible array member Frequency sketch[1] is modelled as a total
  function Nat → Nat, indexed by the flat offsets
  hashOffset + counterIndex used by the C code.
* Items: the source converts a Datum to canonical bytes (DatumToBytes /
  _convertDatumToBytes) and hashes them with MurmurHash3_x64_128 with the
  fixed MURMUR_SEED, producing two 64-bit lanes; datumIsEqual-equal items
  yield identical bytes and hence identical lanes.  That byte/hash pipeline
  belongs to the host type system (the codec boundary of the spec) and is
  abstracted as a parameter hash : α → Nat × Nat on an item type α with
  decidable equality.
* ereport(ERROR, ...) performs a non-local exit before any mutation on the
  paths modelled here, so fallible entry points are modelled with Except.
* CreateCmsTopn computes the sketch geometry with floating-point
  expressions, ceil(exp(1)/errorBound) and ceil(log(1/(1-confidence))).
  The geometry values are taken as parameters sketchDepth/sketchWidth here
  (the claims under study constrain the validation guards and the
  zero-initialisation by palloc0, not the float results); the guards
  themselves compare errorBound/confidenceInterval against the exactly
  representable doubles 0 and 1, modelled on ℚ.
-/

/-- MAX_FREQUENCY from cms_topn.c: ULONG_MAX, the largest unsigned 64-bit
value (also UINT64_MAX in cms.c / cms_mms.c). -/
def MAX_FREQUENCY : Nat := 2 ^ 64 - 1

/-- The CmsTopn struct of cms_topn.c.  The length/varlena header is dropped;
the trailing ArrayType holding the tracked items is modelled as the list
topnArray (in array order, 1-based in the C code). -/
structure CmsTopn (α : Type) where
  sketchDepth : Nat
  sketchWidth : Nat
  topnItemCount : Nat
  minFrequencyOfTopnItems : Nat
  sketch : Nat → Nat
  topnArray : List α

/-- Flat index of the counter consulted for row hashIndex:
hashOffset + counterIndex where hashOffset = hashIndex * sketchWidth,
hashValue = hashValueArray[0] + hashIndex * hashValueArray[1] in uint64
arithmetic, and counterIndex = hashValue % sketchWidth. -/
def sketchCounterIndex (sketchWidth : Nat) (hashValueArray : Nat × Nat)
    (hashIndex : Nat) : Nat :=
  hashIndex * sketchWidth +
    ((hashValueArray.1 + hashIndex * hashValueArray.2) % 2 ^ 64) % sketchWidth

/-- CmsTopnEstimateHashedItemFrequency from cms_topn.c: the running minimum
over the sketchDepth consulted counters, starting from MAX_FREQUENCY. -/
def CmsTopnEstimateHashedItemFrequency {α : Type} (cmsTopn : CmsTopn α)
    (hashValueArray : Nat × Nat) : Nat :=
  (List.range cmsTopn.sketchDepth).foldl
    (fun minFrequency hashIndex =>
      min minFrequency
        (cmsTopn.sketch (sketchCounterIndex cmsTopn.sketchWidth hashValueArray hashIndex)))
    MAX_FREQUENCY

/-- CmsTopnEstimateItemFrequency from cms_topn.c: hash the item's bytes and
estimate from the hashed lanes. -/
def CmsTopnEstimateItemFrequency {α : Type} (hash : α → Nat × Nat)
    (cmsTopn : CmsTopn α) (item : α) : Nat :=
  CmsTopnEstimateHashedItemFrequency cmsTopn (hash item)

/-- UpdateCountMinSketch from cms_topn.c: estimate the current frequency,
set newFrequency to one more (uint64 arithmetic), conservatively update the
consulted counter of every row to Max(counterFrequency, newFrequency), and
return newFrequency.  cms.c's _updateCmsInPlace writes the counter only when
newFrequency > counterFrequency, which yields the same array. -/
def UpdateCountMinSketch {α : Type} (hash : α → Nat × Nat) (cmsTopn : CmsTopn α)
    (newItem : α) : CmsTopn α × Nat :=
  let hashValueArray := hash newItem
  let minFrequency := CmsTopnEstimateHashedItemFrequency cmsTopn hashValueArray
  let newFrequency := (minFrequency + 1) % 2 ^ 64
  let newSketch := (List.range cmsTopn.sketchDepth).foldl
    (fun s hashIndex =>
      Function.update s (sketchCounterIndex cmsTopn.sketchWidth hashValueArray hashIndex)
        (max (s (sketchCounterIndex cmsTopn.sketchWidth hashValueArray hashIndex))
          newFrequency))
    cmsTopn.sketch
  ({ cmsTopn with sketch := newSketch }, newFrequency)

/-- The scan loop of UpdateTopnArray (cms_topn.c): walk the top-n array with
1-based position topnItemIndex, re-estimate each tracked item against the
live sketch, track the minimum frequency and its first (lowest) position,
and stop with minIndex = -1 when the candidate is found (datumIsEqual); the
frequency of the item that equals the candidate still participates in the
minimum, exactly as in the C loop where the estimate precedes the equality
test.  Returns (minOfNewTopnItems, minIndex, candidateAlreadyInArray). -/
def _scanTopn {α : Type} [DecidableEq α] (hash : α → Nat × Nat)
    (cmsTopn : CmsTopn α) (candidateItem : α) :
    List α → Nat → Nat → Int → Nat × Int × Bool
  | [], _, minOfNewTopnItems, minIndex => (minOfNewTopnItems, minIndex, false)
  | topnItem :: rest, topnItemIndex, minOfNewTopnItems, minIndex =>
    let topnItemFrequency := CmsTopnEstimateItemFrequency hash cmsTopn topnItem
    let newMin := if topnItemFrequency < minOfNewTopnItems then topnItemFrequency
      else minOfNewTopnItems
    let newMinIndex := if topnItemFrequency < minOfNewTopnItems then (topnItemIndex : Int)
      else minIndex
    if topnItem = candidateItem then (newMin, -1, true)
    else _scanTopn hash cmsTopn candidateItem rest (topnItemIndex + 1) newMin newMinIndex

/-- array_set on the 1-based top-n ArrayType: index length + 1 appends,
an in-range index replaces.  Any other index cannot be produced on a
reachable path (it would require itemFrequency = MAX_FREQUENCY); PostgreSQL
would extend the array with nulls there, modelled as the unchanged list. -/
def _arraySet {α : Type} (l : List α) (index : Int) (x : α) : List α :=
  if index = (l.length : Int) + 1 then l ++ [x]
  else if 1 ≤ index ∧ index ≤ (l.length : Int) then l.set (index.toNat - 1) x
  else l

/-- UpdateTopnArray from cms_topn.c.  If itemFrequency is at most the stored
minFrequencyOfTopnItems, the item is inserted only when there is room;
otherwise the array is scanned for the minimum-frequency entry (re-estimated
live) and for the candidate itself.  The final guard writes the candidate at
itemIndex and stores minOfNewTopnItems as the new threshold exactly when the
candidate was not found and minOfNewTopnItems <= itemFrequency.  The Bool
result records whether the array/threshold were written (the updated flag of
_updateTopnArray in cms_mms.c; cms_topn.c signals the same by returning a
fresh array). -/
def UpdateTopnArray {α : Type} [DecidableEq α] (hash : α → Nat × Nat)
    (cmsTopn : CmsTopn α) (candidateItem : α) (itemFrequency : Nat) :
    CmsTopn α × Bool :=
  let currentArraySize := cmsTopn.topnArray.length
  let scanResult :=
    if itemFrequency ≤ cmsTopn.minFrequencyOfTopnItems then
      if currentArraySize < cmsTopn.topnItemCount then
        (itemFrequency, ((currentArraySize : Int) + 1), false)
      else (MAX_FREQUENCY, (-1 : Int), false)
    else
      let r := _scanTopn hash cmsTopn candidateItem cmsTopn.topnArray 1 MAX_FREQUENCY 1
      if r.2.2 = false ∧ currentArraySize < cmsTopn.topnItemCount then
        (min r.1 itemFrequency, ((currentArraySize : Int) + 1), r.2.2)
      else r
  let minOfNewTopnItems := scanResult.1
  let itemIndex := scanResult.2.1
  let candidateAlreadyInArray := scanResult.2.2
  if candidateAlreadyInArray = false ∧ minOfNewTopnItems ≤ itemFrequency then
    ({ cmsTopn with
        topnArray := _arraySet cmsTopn.topnArray itemIndex candidateItem,
        minFrequencyOfTopnItems := minOfNewTopnItems }, true)
  else (cmsTopn, false)

/-- CmsTopnAddItem from cms_topn.c: update the sketch, then offer the item
together with its new frequency to the top-n array. -/
def CmsTopnAddItem {α : Type} [DecidableEq α] (hash : α → Nat × Nat)
    (cmsTopn : CmsTopn α) (newItem : α) : CmsTopn α :=
  let r := UpdateCountMinSketch hash cmsTopn newItem
  (UpdateTopnArray hash r.1 newItem r.2).1

/-- A sequence of cms_topn_add calls, left to right. -/
def cmsAddSeq {α : Type} [DecidableEq α] (hash : α → Nat × Nat)
    (items : List α) (cmsTopn : CmsTopn α) : CmsTopn α :=
  items.foldl (fun cms newItem => CmsTopnAddItem hash cms newItem) cmsTopn

/-- The CmsTopn produced by CreateCmsTopn on the success path: palloc0
zeroes every counter, topnItemCount is stored, minFrequencyOfTopnItems is
initialised to MAX_FREQUENCY and no top-n array exists yet. -/
def freshCmsTopn (α : Type) (sketchDepth sketchWidth topnItemCount : Nat) :
    CmsTopn α :=
  { sketchDepth := sketchDepth
    sketchWidth := sketchWidth
    topnItemCount := topnItemCount
    minFrequencyOfTopnItems := MAX_FREQUENCY
    sketch := fun _ => 0
    topnArray := [] }

/-- The error conditions raised by the modelled entry points (all reported
with ereport(ERROR, errcode(ERRCODE_INVALID_PARAMETER_VALUE), ...) in the
source; the constructors follow the errmsg/errhint texts). -/
inductive CmsTopnError : Type
  | invalidTopnItemCount
  | invalidErrorBound
  | invalidConfidenceInterval
  | mergeParametersMismatch
  | mergeTypesMismatch
deriving DecidableEq

/-- Tests whether an Except value is an error. -/
def exceptIsError {ε σ : Type} : Except ε σ → Bool
  | Except.error _ => true
  | Except.ok _ => false

/-- CreateCmsTopn from cms_topn.c: validate topnItemCount > 0 and
errorBound, confidenceInterval strictly inside (0,1) -- the C guards are
errorBound <= 0 || errorBound >= 1 and likewise for the confidence -- in
source order, then allocate the zeroed structure.  The float-computed
geometry is passed in as sketchDepth/sketchWidth (see the header comment). -/
def CreateCmsTopn (α : Type) (sketchDepth sketchWidth : Nat) (topnItemCount : Int)
    (errorBound confidenceInterval : ℚ) : Except CmsTopnError (CmsTopn α) :=
  if topnItemCount ≤ 0 then Except.error CmsTopnError.invalidTopnItemCount
  else if errorBound ≤ 0 ∨ 1 ≤ errorBound then
    Except.error CmsTopnError.invalidErrorBound
  else if confidenceInterval ≤ 0 ∨ 1 ≤ confidenceInterval then
    Except.error CmsTopnError.invalidConfidenceInterval
  else Except.ok (freshCmsTopn α sketchDepth sketchWidth topnItemCount.toNat)

/-- CmsTopnUnion from cms_topn.c: add the second sketch into the first,
elementwise over the sketchDepth * sketchWidth counters of the first sketch
(uint64 addition, hence the remainder), then offer every item tracked by the
second sketch, in array order, into the first top-n array using its
frequency re-estimated against the combined sketch. -/
def CmsTopnUnion {α : Type} [DecidableEq α] (hash : α → Nat × Nat)
    (firstCmsTopn secondCmsTopn : CmsTopn α) : CmsTopn α :=
  let sketchSize := firstCmsTopn.sketchDepth * firstCmsTopn.sketchWidth
  let summedSketch := fun j =>
    if j < sketchSize then (firstCmsTopn.sketch j + secondCmsTopn.sketch j) % 2 ^ 64
    else firstCmsTopn.sketch j
  let newCms := { firstCmsTopn with sketch := summedSketch }
  secondCmsTopn.topnArray.foldl
    (fun cms topnItem =>
      let newItemFrequency := CmsTopnEstimateItemFrequency hash cms topnItem
      (UpdateTopnArray hash cms topnItem newItemFrequency).1)
    newCms

/-- cms_topn_union from cms_topn.c, non-null path: reject operands whose
sketchDepth, sketchWidth or topnItemCount differ, return the other operand
when one top-n array is empty, and otherwise combine with CmsTopnUnion.
The elemtype comparison of the two arrays is the host type system's
monomorphism check and cannot fire at a single Lean item type α. -/
def cms_topn_union {α : Type} [DecidableEq α] (hash : α → Nat × Nat)
    (firstCmsTopn secondCmsTopn : CmsTopn α) : Except CmsTopnError (CmsTopn α) :=
  if firstCmsTopn.sketchDepth ≠ secondCmsTopn.sketchDepth
      ∨ firstCmsTopn.sketchWidth ≠ secondCmsTopn.sketchWidth
      ∨ firstCmsTopn.topnItemCount ≠ secondCmsTopn.topnItemCount then
    Except.error CmsTopnError.mergeParametersMismatch
  else if firstCmsTopn.topnArray.length = 0 then Except.ok secondCmsTopn
  else if secondCmsTopn.topnArray.length = 0 then Except.ok firstCmsTopn
  else Except.ok (CmsTopnUnion hash firstCmsTopn secondCmsTopn)

/-- cms_topn_frequency from cms_topn.c (and cms_get_frequency in cms.c and
cms_mms.c): the uint64 estimate is returned through PG_RETURN_INT32, so the
value handed to the caller is the estimate truncated to its low 32 bits. -/
def cms_topn_frequency {α : Type} (hash : α → Nat × Nat) (cmsTopn : CmsTopn α)
    (item : α) : Nat :=
  CmsTopnEstimateItemFrequency hash cmsTopn item % 2 ^ 32

/-- The inner scan of the selection sort in topn() (cms_topn.c) and
_sortTopnItems (cms_mms.c): starting from the current maximum
maxItemFrequency at position maxItemIndex, scan the remaining entries
(j is the position of the list head) and move the maximum to any strictly
larger frequency, so the first position of the maximum wins ties. -/
def _findMaxFrom {α : Type} (maxItemFrequency maxItemIndex j : Nat) :
    List (α × Nat) → Nat × Nat
  | [] => (maxItemFrequency, maxItemIndex)
  | y :: ys =>
    if maxItemFrequency < y.2 then _findMaxFrom y.2 j (j + 1) ys
    else _findMaxFrom maxItemFrequency maxItemIndex (j + 1) ys

/-- The selection sort of topn() / _sortTopnItems, on the list of
(item, frequency) pairs: find the first position of the maximum frequency
among the current position and the rest, swap it to the front, and continue
with the remainder (which, after the swap, carries the old front element at
the selected position). -/
def _sortTopnItems {α : Type} : List (α × Nat) → List (α × Nat)
  | [] => []
  | x :: xs =>
    let m := (_findMaxFrom x.2 0 1 xs).2
    if m = 0 then x :: _sortTopnItems xs
    else xs.getD (m - 1) x :: _sortTopnItems (xs.set (m - 1) x)
termination_by l => l.length
decreasing_by
  all_goals simp [List.length_set]

/-- The topn() user-facing function (cms_topn.c): pair every tracked item
with its frequency re-estimated against the live sketch, then selection-sort
descending by frequency. -/
def topnList {α : Type} (hash : α → Nat × Nat) (cmsTopn : CmsTopn α) :
    List (α × Nat) :=
  _sortTopnItems
    (cmsTopn.topnArray.map (fun topnItem =>
      (topnItem, CmsTopnEstimateItemFrequency hash cmsTopn topnItem)))

/-- The MinMaskSketch struct of cms_mms.c. -/
structure MinMaskSketch where
  sketchDepth : Nat
  sketchWidth : Nat
  sketch : Nat → Nat

/-- The while loop of _countSetBits with an explicit fuel bound on the
number of halvings; mask many steps always suffice since the mask strictly
decreases until it reaches zero. -/
def _countSetBitsAux : Nat → Nat → Nat
  | 0, _ => 0
  | fuel + 1, mask =>
    if mask = 0 then 0 else (mask &&& 1) + _countSetBitsAux fuel (mask >>> 1)

/-- _countSetBits from cms_mms.c: count += mask & 1; mask >>= 1 until the
mask is zero. -/
def _countSetBits (mask : Nat) : Nat :=
  _countSetBitsAux mask mask

/-- _mmsEstimateHashedItemMask from cms_mms.c: among the sketchDepth
consulted cells keep the mask with strictly fewer set bits than the current
one, starting from UINT64_MAX. -/
def _mmsEstimateHashedItemMask (mms : MinMaskSketch) (hashValueArray : Nat × Nat) : Nat :=
  (List.range mms.sketchDepth).foldl
    (fun minMask hashIndex =>
      let counterMask := mms.sketch (sketchCounterIndex mms.sketchWidth hashValueArray hashIndex)
      if _countSetBits counterMask < _countSetBits minMask then counterMask else minMask)
    MAX_FREQUENCY

/-- _mmsEstimateItemMask from cms_mms.c: hash the item's bytes and estimate
from the hashed lanes. -/
def _mmsEstimateItemMask {α : Type} (hash : α → Nat × Nat) (mms : MinMaskSketch)
    (item : α) : Nat :=
  _mmsEstimateHashedItemMask mms (hash item)

/-- _updateMmsInPlace from cms_mms.c: newMask is the bitwise OR of the
estimated minimum mask with the added item's mask; each consulted cell is
replaced by newMask only when newMask has strictly more set bits; newMask is
returned. -/
def _updateMmsInPlace {α : Type} (hash : α → Nat × Nat) (mms : MinMaskSketch)
    (newItem : α) (newItemMask : Nat) : MinMaskSketch × Nat :=
  let hashValueArray := hash newItem
  let minMask := _mmsEstimateHashedItemMask mms hashValueArray
  let newMask := minMask ||| newItemMask
  let newSketch := (List.range mms.sketchDepth).foldl
    (fun s hashIndex =>
      let counterMask := s (sketchCounterIndex mms.sketchWidth hashValueArray hashIndex)
      if _countSetBits newMask > _countSetBits counterMask then
        Function.update s (sketchCounterIndex mms.sketchWidth hashValueArray hashIndex) newMask
      else s)
    mms.sketch
  ({ mms with sketch := newSketch }, newMask)

/-- mms_add from cms_mms.c: the user-facing add path.  The int64 mask
argument is read into a uint32 local (uint32 newItemMask = 0; ...
newItemMask = PG_GETARG_INT64(2);), so only the low 32 bits of the mask
reach _updateMms/_updateMmsInPlace (which take the mask back as uint64). -/
def mms_add {α : Type} (hash : α → Nat × Nat) (mms : MinMaskSketch)
    (newItem : α) (newItemMask : Nat) : MinMaskSketch × Nat :=
  _updateMmsInPlace hash mms newItem (newItemMask % 2 ^ 32)

/-- mms_get_mask from cms_mms.c: the estimated uint64 mask is stored into a
uint32 local (uint32 mask = 0; mask = _mmsEstimateItemMask(...);) before
being returned, so the user sees it reduced modulo 2 ^ 32. -/
def mms_get_mask {α : Type} (hash : α → Nat × Nat) (mms : MinMaskSketch)
    (item : α) : Nat :=
  _mmsEstimateItemMask hash mms item % 2 ^ 32

/-!
## Concrete states used by the witnesses and counterexamples

natHash stands for a concrete realisation of the hash boundary on Nat items:
item n hashes to lanes (n, 0), so with sketchWidth W item n always consults
column n % W of every row.  Items 0 and 1 never share a counter when W ≥ 2.
-/

/-- A concrete hash assignment for Nat items: lanes (n, 0). -/
def natHash : Nat → Nat × Nat := fun n => (n, 0)

/-- A capacity-1 tracker that accepted item 0 offered with frequency 5:
its array is [0] and its stored threshold is 5. -/
def capacityOneTracker : CmsTopn Nat :=
  (UpdateTopnArray natHash (freshCmsTopn Nat 1 3 1) 0 5).1

/-- A capacity-1 tracker holding item 0 with a stale stored threshold: the
threshold is still 5 but the sketch has grown so that item 0 (and item 1)
now re-estimate to 7.  Reachable by offering item 0 at frequency 5 and then
adding item 0 twice more elsewhere. -/
def staleTieTracker : CmsTopn Nat :=
  { sketchDepth := 1, sketchWidth := 2, topnItemCount := 1,
    minFrequencyOfTopnItems := 5,
    sketch := fun j => if j = 0 then 7 else if j = 1 then 7 else 0,
    topnArray := [0] }

/-- A capacity-1 tracker holding item 0 (estimate 3, stored threshold 3)
while item 1 estimates to 10: offering item 1 evicts item 0. -/
def evictionTracker : CmsTopn Nat :=
  { sketchDepth := 1, sketchWidth := 2, topnItemCount := 1,
    minFrequencyOfTopnItems := 3,
    sketch := fun j => if j = 0 then 3 else if j = 1 then 10 else 0,
    topnArray := [0] }

/-- A 1 x 1 sketch whose only counter is saturated at MAX_FREQUENCY, the
state reached after the estimate of the (single) item has been driven to
MAX_FREQUENCY (for instance by repeated unions of a sketch with itself). -/
def saturatedCms : CmsTopn Nat :=
  { sketchDepth := 1, sketchWidth := 1, topnItemCount := 1,
    minFrequencyOfTopnItems := MAX_FREQUENCY,
    sketch := fun _ => MAX_FREQUENCY, topnArray := [] }

/-- A 1 x 1 sketch whose counter holds 2 ^ 63; summing it with itself wraps
to 0 in uint64 arithmetic. -/
def halfRangeCms : CmsTopn Nat :=
  { sketchDepth := 1, sketchWidth := 1, topnItemCount := 1,
    minFrequencyOfTopnItems := 0,
    sketch := fun _ => 2 ^ 63, topnArray := [0] }

/-- The sketch of the spec's union example in which item (1,1) was added
three times (items are their own hash lanes). -/
def unionExampleA : CmsTopn (Nat × Nat) :=
  cmsAddSeq id (List.replicate 3 ((1, 1) : Nat × Nat)) (freshCmsTopn (Nat × Nat) 2 3 1)

/-- The sketch of the spec's union example in which item (1,1) was added
twice. -/
def unionExampleB : CmsTopn (Nat × Nat) :=
  cmsAddSeq id (List.replicate 2 ((1, 1) : Nat × Nat)) (freshCmsTopn (Nat × Nat) 2 3 1)

/-- A freshly created 2 x 3 min-mask sketch. -/
def mmsExample : MinMaskSketch := ⟨2, 3, fun _ => 0⟩

/-- A 1 x 1 sketch whose counter holds 2 ^ 32, so the internal 64-bit
estimate of every item no longer fits in the 32-bit return path. -/
def wideCountCms : CmsTopn Nat :=
  { sketchDepth := 1, sketchWidth := 1, topnItemCount := 1,
    minFrequencyOfTopnItems := 0,
    sketch := fun _ => 2 ^ 32, topnArray := [] }

/-- A capacity-2 tracker holding items 0 and 1 whose live estimates are 4
and 9: topn must list item 1 before item 0. -/
def topnQueryCms : CmsTopn Nat :=
  { sketchDepth := 1, sketchWidth := 2, topnItemCount := 2,
    minFrequencyOfTopnItems := 4,
    sketch := fun j => if j = 0 then 4 else if j = 1 then 9 else 0,
    topnArray := [0, 1] }

/-!
## Generic facts about the folds used by the sketch operations
-/

/-- The running minimum never exceeds its starting value. -/
theorem foldlMin_le_init (c : Nat → Nat) :
    ∀ (l : List Nat) (init : Nat),
      List.foldl (fun m i => min m (c i)) init l ≤ init := by
  intro l
  induction l with
  | nil => intro init; simp
  | cons a l ih =>
    intro init
    exact le_trans (ih _) (Nat.min_le_left _ _)

/-- The running minimum is a lower bound of every visited cell. -/
theorem foldlMin_le_mem (c : Nat → Nat) :
    ∀ (l : List Nat) (init : Nat) (i : Nat), i ∈ l →
      List.foldl (fun m i => min m (c i)) init l ≤ c i := by
  intro l
  induction l with
  | nil => intro init i hi; simp at hi
  | cons a l ih =>
    intro init i hi
    rcases List.mem_cons.mp hi with h | h
    · subst h
      exact le_trans (foldlMin_le_init c l _) (Nat.min_le_right _ _)
    · exact ih _ i h

/-- The running minimum is the starting value or one of the visited cells. -/
theorem foldlMin_init_or_mem (c : Nat → Nat) :
    ∀ (l : List Nat) (init : Nat),
      List.foldl (fun m i => min m (c i)) init l = init
        ∨ ∃ i ∈ l, List.foldl (fun m i => min m (c i)) init l = c i := by
  intro l
  induction l with
  | nil => intro init; left; rfl
  | cons a l ih =>
    intro init
    rw [List.foldl_cons]
    rcases ih (min init (c a)) with h | ⟨i, hi, h⟩
    · rcases Nat.le_total init (c a) with hle | hle
      · left; rw [h, Nat.min_eq_left hle]
      · right; exact ⟨a, List.mem_cons_self a l, by rw [h, Nat.min_eq_right hle]⟩
    · right; exact ⟨i, List.mem_cons_of_mem a hi, h⟩

/-- A common lower bound of the start and of every cell bounds the fold. -/
theorem foldlMin_ge (c : Nat → Nat) :
    ∀ (l : List Nat) (init b : Nat), b ≤ init → (∀ i ∈ l, b ≤ c i) →
      b ≤ List.foldl (fun m i => min m (c i)) init l := by
  intro l
  induction l with
  | nil => intro init b hb _; simpa using hb
  | cons a l ih =>
    intro init b hb hc
    rw [List.foldl_cons]
    exact ih _ b (le_min hb (hc a (List.mem_cons_self a l)))
      (fun i hi => hc i (List.mem_cons_of_mem a hi))

/-- Monotonicity of the running minimum in the start and the cells. -/
theorem foldlMin_mono (c c' : Nat → Nat) :
    ∀ (l : List Nat) (init init' : Nat), init ≤ init' → (∀ i ∈ l, c i ≤ c' i) →
      List.foldl (fun m i => min m (c i)) init l
        ≤ List.foldl (fun m i => min m (c' i)) init' l := by
  intro l
  induction l with
  | nil => intro init init' h _; simpa using h
  | cons a l ih =>
    intro init init' h hc
    rw [List.foldl_cons, List.foldl_cons]
    exact ih _ _ (min_le_min h (hc a (List.mem_cons_self a l)))
      (fun i hi => hc i (List.mem_cons_of_mem a hi))

/-- The running minimum only looks at the visited cells. -/
theorem foldlMin_congr (c c' : Nat → Nat) :
    ∀ (l : List Nat) (init : Nat), (∀ i ∈ l, c i = c' i) →
      List.foldl (fun m i => min m (c i)) init l
        = List.foldl (fun m i => min m (c' i)) init l := by
  intro l
  induction l with
  | nil => intro init _; rfl
  | cons a l ih =>
    intro init hc
    rw [List.foldl_cons, List.foldl_cons, hc a (List.mem_cons_self a l)]
    exact ih _ (fun i hi => hc i (List.mem_cons_of_mem a hi))

/-- When every visited cell holds the same value v, the fold of a nonempty
row list is min init v. -/
theorem foldlMin_const (c : Nat → Nat) (v : Nat) :
    ∀ (l : List Nat) (init : Nat), (∀ i ∈ l, c i = v) → l ≠ [] →
      List.foldl (fun m i => min m (c i)) init l = min init v := by
  intro l
  induction l with
  | nil => intro init _ h; exact absurd rfl h
  | cons a l ih =>
    intro init hc _
    rw [List.foldl_cons, hc a (List.mem_cons_self a l)]
    rcases eq_or_ne l [] with rfl | hl
    · simp
    · rw [ih _ (fun i hi => hc i (List.mem_cons_of_mem a hi)) hl, Nat.min_assoc,
        Nat.min_self]

/-- Pointwise description of the conservative-update fold: a cell consulted
by some visited row becomes the max of its old value and the new frequency,
every other cell is untouched (a cell consulted by several rows still gets
that max, since the per-row write is idempotent). -/
theorem foldlUpdateMax_apply (idx : Nat → Nat) (f : Nat) :
    ∀ (l : List Nat) (s : Nat → Nat) (j : Nat),
      List.foldl (fun s i => Function.update s (idx i) (max (s (idx i)) f)) s l j
        = if ∃ i ∈ l, idx i = j then max (s j) f else s j := by
  intro l
  induction l with
  | nil => intro s j; simp
  | cons a l ih =>
    intro s j
    rw [List.foldl_cons, ih]
    by_cases ha : idx a = j
    · subst ha
      by_cases hl : ∃ i ∈ l, idx i = idx a <;>
        simp [List.exists_mem_cons_iff, hl, Function.update_same, Nat.max_assoc]
    · have ha' : j ≠ idx a := fun h => ha h.symm
      by_cases hl : ∃ i ∈ l, idx i = j <;>
        simp [List.exists_mem_cons_iff, ha, ha', hl, Function.update_apply]

/-- Pointwise description of the min-mask conservative-update fold: a cell
consulted by some visited row is replaced by the new mask exactly when the
new mask has strictly more set bits, every other cell is untouched. -/
theorem foldlUpdateMask_apply (idx : Nat → Nat) (f : Nat) :
    ∀ (l : List Nat) (s : Nat → Nat) (j : Nat),
      List.foldl (fun s i =>
          if _countSetBits f > _countSetBits (s (idx i)) then Function.update s (idx i) f
          else s) s l j
        = if ∃ i ∈ l, idx i = j then
            (if _countSetBits f > _countSetBits (s j) then f else s j)
          else s j := by
  intro l
  induction l with
  | nil => intro s j; simp
  | cons a l ih =>
    intro s j
    rw [List.foldl_cons, ih]
    by_cases ha : idx a = j
    · subst ha
      by_cases hc : _countSetBits f > _countSetBits (s (idx a))
      · simp [List.exists_mem_cons_iff, hc, Function.update_apply]
      · simp [List.exists_mem_cons_iff, hc]
    · have ha' : j ≠ idx a := fun h => ha h.symm
      by_cases hc : _countSetBits f > _countSetBits (s (idx a)) <;>
        by_cases hl : ∃ i ∈ l, idx i = j <;>
        simp [List.exists_mem_cons_iff, ha, ha', hc, hl, Function.update_apply]

/-- The popcount of the running minimum-popcount mask bounds the start's
popcount and every visited cell's popcount. -/
theorem foldlArgmin_le (c : Nat → Nat) :
    ∀ (l : List Nat) (init : Nat),
      _countSetBits (List.foldl
          (fun mm i => if _countSetBits (c i) < _countSetBits mm then c i else mm) init l)
        ≤ _countSetBits init
      ∧ ∀ i ∈ l,
          _countSetBits (List.foldl
            (fun mm i => if _countSetBits (c i) < _countSetBits mm then c i else mm) init l)
          ≤ _countSetBits (c i) := by
  intro l
  induction l with
  | nil => intro init; exact ⟨le_refl _, by simp⟩
  | cons a l ih =>
    intro init
    rw [List.foldl_cons]
    by_cases hc : _countSetBits (c a) < _countSetBits init
    · rw [if_pos hc]
      refine ⟨le_trans (ih (c a)).1 (le_of_lt hc), ?_⟩
      intro i hi
      rcases List.mem_cons.mp hi with h | h
      · rw [h]; exact (ih (c a)).1
      · exact (ih (c a)).2 i h
    · rw [if_neg hc]
      refine ⟨(ih init).1, ?_⟩
      intro i hi
      rcases List.mem_cons.mp hi with h | h
      · rw [h]; exact le_trans (ih init).1 (Nat.le_of_not_lt hc)
      · exact (ih init).2 i h

/-- The running minimum-popcount mask is the start or one of the cells. -/
theorem foldlArgmin_init_or_mem (c : Nat → Nat) :
    ∀ (l : List Nat) (init : Nat),
      List.foldl (fun mm i => if _countSetBits (c i) < _countSetBits mm then c i else mm)
          init l = init
        ∨ ∃ i ∈ l,
            List.foldl (fun mm i => if _countSetBits (c i) < _countSetBits mm then c i else mm)
              init l = c i := by
  intro l
  induction l with
  | nil => intro init; left; rfl
  | cons a l ih =>
    intro init
    rw [List.foldl_cons]
    by_cases hc : _countSetBits (c a) < _countSetBits init
    · rw [if_pos hc]
      rcases ih (c a) with h | ⟨i, hi, h⟩
      · right; exact ⟨a, List.mem_cons_self a l, h⟩
      · right; exact ⟨i, List.mem_cons_of_mem a hi, h⟩
    · rw [if_neg hc]
      rcases ih init with h | ⟨i, hi, h⟩
      · left; exact h
      · right; exact ⟨i, List.mem_cons_of_mem a hi, h⟩

/-!
## Field preservation of the operations
-/

/-- Updating the sketch touches only the sketch field. -/
theorem UpdateCountMinSketch_sketchDepth {α : Type} (hash : α → Nat × Nat)
    (cmsTopn : CmsTopn α) (newItem : α) :
    (UpdateCountMinSketch hash cmsTopn newItem).1.sketchDepth = cmsTopn.sketchDepth := rfl

/-- Updating the sketch touches only the sketch field. -/
theorem UpdateCountMinSketch_sketchWidth {α : Type} (hash : α → Nat × Nat)
    (cmsTopn : CmsTopn α) (newItem : α) :
    (UpdateCountMinSketch hash cmsTopn newItem).1.sketchWidth = cmsTopn.sketchWidth := rfl

/-- The returned frequency is the estimate plus one in uint64 arithmetic. -/
theorem UpdateCountMinSketch_newFrequency {α : Type} (hash : α → Nat × Nat)
    (cmsTopn : CmsTopn α) (newItem : α) :
    (UpdateCountMinSketch hash cmsTopn newItem).2
      = (CmsTopnEstimateHashedItemFrequency cmsTopn (hash newItem) + 1) % 2 ^ 64 := rfl

/-- UpdateTopnArray never writes the sketch. -/
theorem UpdateTopnArray_sketch {α : Type} [DecidableEq α] (hash : α → Nat × Nat)
    (cmsTopn : CmsTopn α) (candidateItem : α) (itemFrequency : Nat) :
    (UpdateTopnArray hash cmsTopn candidateItem itemFrequency).1.sketch = cmsTopn.sketch := by
  simp only [UpdateTopnArray]
  repeat' split
  all_goals rfl

/-- UpdateTopnArray never changes the sketch depth. -/
theorem UpdateTopnArray_sketchDepth {α : Type} [DecidableEq α] (hash : α → Nat × Nat)
    (cmsTopn : CmsTopn α) (candidateItem : α) (itemFrequency : Nat) :
    (UpdateTopnArray hash cmsTopn candidateItem itemFrequency).1.sketchDepth
      = cmsTopn.sketchDepth := by
  simp only [UpdateTopnArray]
  repeat' split
  all_goals rfl

/-- UpdateTopnArray never changes the sketch width. -/
theorem UpdateTopnArray_sketchWidth {α : Type} [DecidableEq α] (hash : α → Nat × Nat)
    (cmsTopn : CmsTopn α) (candidateItem : α) (itemFrequency : Nat) :
    (UpdateTopnArray hash cmsTopn candidateItem itemFrequency).1.sketchWidth
      = cmsTopn.sketchWidth := by
  simp only [UpdateTopnArray]
  repeat' split
  all_goals rfl

/-- UpdateTopnArray never changes the tracker capacity. -/
theorem UpdateTopnArray_topnItemCount {α : Type} [DecidableEq α] (hash : α → Nat × Nat)
    (cmsTopn : CmsTopn α) (candidateItem : α) (itemFrequency : Nat) :
    (UpdateTopnArray hash cmsTopn candidateItem itemFrequency).1.topnItemCount
      = cmsTopn.topnItemCount := by
  simp only [UpdateTopnArray]
  repeat' split
  all_goals rfl

/-- A full add changes the sketch exactly as UpdateCountMinSketch does. -/
theorem CmsTopnAddItem_sketch {α : Type} [DecidableEq α] (hash : α → Nat × Nat)
    (cmsTopn : CmsTopn α) (newItem : α) :
    (CmsTopnAddItem hash cmsTopn newItem).sketch
      = (UpdateCountMinSketch hash cmsTopn newItem).1.sketch :=
  UpdateTopnArray_sketch hash (UpdateCountMinSketch hash cmsTopn newItem).1 newItem
    (UpdateCountMinSketch hash cmsTopn newItem).2

/-- A full add preserves the sketch depth. -/
theorem CmsTopnAddItem_sketchDepth {α : Type} [DecidableEq α] (hash : α → Nat × Nat)
    (cmsTopn : CmsTopn α) (newItem : α) :
    (CmsTopnAddItem hash cmsTopn newItem).sketchDepth = cmsTopn.sketchDepth :=
  UpdateTopnArray_sketchDepth hash (UpdateCountMinSketch hash cmsTopn newItem).1 newItem
    (UpdateCountMinSketch hash cmsTopn newItem).2

/-- A full add preserves the sketch width. -/
theorem CmsTopnAddItem_sketchWidth {α : Type} [DecidableEq α] (hash : α → Nat × Nat)
    (cmsTopn : CmsTopn α) (newItem : α) :
    (CmsTopnAddItem hash cmsTopn newItem).sketchWidth = cmsTopn.sketchWidth :=
  UpdateTopnArray_sketchWidth hash (UpdateCountMinSketch hash cmsTopn newItem).1 newItem
    (UpdateCountMinSketch hash cmsTopn newItem).2

/-!
## Estimate facts
-/

/-- An estimate never exceeds MAX_FREQUENCY (the fold starts there). -/
theorem estimateHashed_le_MAX {α : Type} (cmsTopn : CmsTopn α) (hashValueArray : Nat × Nat) :
    CmsTopnEstimateHashedItemFrequency cmsTopn hashValueArray ≤ MAX_FREQUENCY :=
  foldlMin_le_init _ _ _

/-- The estimate only depends on depth, width and the counter values. -/
theorem estimateHashed_congr {α β : Type} (cmsTopn : CmsTopn α) (other : CmsTopn β)
    (hashValueArray : Nat × Nat)
    (hd : other.sketchDepth = cmsTopn.sketchDepth)
    (hw : other.sketchWidth = cmsTopn.sketchWidth)
    (hs : ∀ j, other.sketch j = cmsTopn.sketch j) :
    CmsTopnEstimateHashedItemFrequency other hashValueArray
      = CmsTopnEstimateHashedItemFrequency cmsTopn hashValueArray := by
  unfold CmsTopnEstimateHashedItemFrequency
  rw [hd, hw]
  exact foldlMin_congr _ _ _ _ (fun i _ => hs _)

/-- Pointwise larger counters give a pointwise larger estimate. -/
theorem estimateHashed_mono {α β : Type} (cmsTopn : CmsTopn α) (other : CmsTopn β)
    (hashValueArray : Nat × Nat)
    (hd : other.sketchDepth = cmsTopn.sketchDepth)
    (hw : other.sketchWidth = cmsTopn.sketchWidth)
    (hs : ∀ j, cmsTopn.sketch j ≤ other.sketch j) :
    CmsTopnEstimateHashedItemFrequency cmsTopn hashValueArray
      ≤ CmsTopnEstimateHashedItemFrequency other hashValueArray := by
  unfold CmsTopnEstimateHashedItemFrequency
  rw [hd, hw]
  exact foldlMin_mono _ _ _ _ _ (le_refl _) (fun i _ => hs _)

/-- Pointwise description of the counters after UpdateCountMinSketch. -/
theorem UpdateCountMinSketch_sketch_apply {α : Type} (hash : α → Nat × Nat)
    (cmsTopn : CmsTopn α) (newItem : α) (j : Nat) :
    (UpdateCountMinSketch hash cmsTopn newItem).1.sketch j
      = if ∃ i ∈ List.range cmsTopn.sketchDepth,
            sketchCounterIndex cmsTopn.sketchWidth (hash newItem) i = j
        then max (cmsTopn.sketch j)
          ((CmsTopnEstimateHashedItemFrequency cmsTopn (hash newItem) + 1) % 2 ^ 64)
        else cmsTopn.sketch j :=
  foldlUpdateMax_apply _ _ _ _ _

/-- Counters never decrease under UpdateCountMinSketch. -/
theorem UpdateCountMinSketch_sketch_ge {α : Type} (hash : α → Nat × Nat)
    (cmsTopn : CmsTopn α) (newItem : α) (j : Nat) :
    cmsTopn.sketch j ≤ (UpdateCountMinSketch hash cmsTopn newItem).1.sketch j := by
  rw [UpdateCountMinSketch_sketch_apply]
  split
  · exact Nat.le_max_left _ _
  · exact le_refl _

/-- A common lower bound of MAX_FREQUENCY and of every consulted counter
bounds the estimate. -/
theorem estimateHashed_ge {α : Type} (cmsTopn : CmsTopn α) (hashValueArray : Nat × Nat)
    (b : Nat) (hb : b ≤ MAX_FREQUENCY)
    (hc : ∀ i, i < cmsTopn.sketchDepth →
      b ≤ cmsTopn.sketch (sketchCounterIndex cmsTopn.sketchWidth hashValueArray i)) :
    b ≤ CmsTopnEstimateHashedItemFrequency cmsTopn hashValueArray := by
  unfold CmsTopnEstimateHashedItemFrequency
  exact foldlMin_ge _ _ _ _ hb (fun i hi => hc i (List.mem_range.mp hi))

/-- The estimate is a lower bound of every consulted counter. -/
theorem estimateHashed_le_cell {α : Type} (cmsTopn : CmsTopn α)
    (hashValueArray : Nat × Nat) (i : Nat) (hi : i < cmsTopn.sketchDepth) :
    CmsTopnEstimateHashedItemFrequency cmsTopn hashValueArray
      ≤ cmsTopn.sketch (sketchCounterIndex cmsTopn.sketchWidth hashValueArray i) :=
  foldlMin_le_mem _ _ _ _ (List.mem_range.mpr hi)

/-- The estimate is MAX_FREQUENCY or the value of some consulted counter. -/
theorem estimateHashed_attained {α : Type} (cmsTopn : CmsTopn α)
    (hashValueArray : Nat × Nat) :
    CmsTopnEstimateHashedItemFrequency cmsTopn hashValueArray = MAX_FREQUENCY
      ∨ ∃ i, i < cmsTopn.sketchDepth ∧
          CmsTopnEstimateHashedItemFrequency cmsTopn hashValueArray
            = cmsTopn.sketch (sketchCounterIndex cmsTopn.sketchWidth hashValueArray i) := by
  rcases foldlMin_init_or_mem
      (fun i => cmsTopn.sketch (sketchCounterIndex cmsTopn.sketchWidth hashValueArray i))
      (List.range cmsTopn.sketchDepth) MAX_FREQUENCY with h | ⟨i, hi, h⟩
  · exact Or.inl h
  · exact Or.inr ⟨i, List.mem_range.mp hi, h⟩

/-- Adding an item raises its own estimate to at least
min (old estimate + 1) MAX_FREQUENCY: on the saturated branch the write is
max(counter, 0) and the estimate stays at MAX_FREQUENCY, otherwise every
consulted counter is raised to at least old estimate + 1. -/
theorem estimateHashed_after_update_self {α : Type} (hash : α → Nat × Nat)
    (cmsTopn : CmsTopn α) (newItem : α) :
    min (CmsTopnEstimateHashedItemFrequency cmsTopn (hash newItem) + 1) MAX_FREQUENCY
      ≤ CmsTopnEstimateHashedItemFrequency
          (UpdateCountMinSketch hash cmsTopn newItem).1 (hash newItem) := by
  have hle : CmsTopnEstimateHashedItemFrequency cmsTopn (hash newItem) ≤ MAX_FREQUENCY :=
    estimateHashed_le_MAX cmsTopn (hash newItem)
  rcases eq_or_lt_of_le hle with heq | hlt
  · -- saturated: newFrequency wraps to 0 and no counter changes
    have hnf : (CmsTopnEstimateHashedItemFrequency cmsTopn (hash newItem) + 1) % 2 ^ 64 = 0 := by
      rw [heq]; norm_num [MAX_FREQUENCY]
    have hs : ∀ j, (UpdateCountMinSketch hash cmsTopn newItem).1.sketch j = cmsTopn.sketch j := by
      intro j
      rw [UpdateCountMinSketch_sketch_apply, hnf]
      split <;> simp
    have hcongr := estimateHashed_congr cmsTopn (UpdateCountMinSketch hash cmsTopn newItem).1
      (hash newItem) (UpdateCountMinSketch_sketchDepth hash cmsTopn newItem)
      (UpdateCountMinSketch_sketchWidth hash cmsTopn newItem) hs
    rw [hcongr, heq]
    exact Nat.min_le_right _ _
  · -- unsaturated: newFrequency is estimate + 1 and bounds every consulted cell
    have hnf : (CmsTopnEstimateHashedItemFrequency cmsTopn (hash newItem) + 1) % 2 ^ 64
        = CmsTopnEstimateHashedItemFrequency cmsTopn (hash newItem) + 1 := by
      apply Nat.mod_eq_of_lt
      have hm : MAX_FREQUENCY = 2 ^ 64 - 1 := rfl
      omega
    have h1 : CmsTopnEstimateHashedItemFrequency cmsTopn (hash newItem) + 1
        ≤ CmsTopnEstimateHashedItemFrequency
            (UpdateCountMinSketch hash cmsTopn newItem).1 (hash newItem) := by
      apply estimateHashed_ge
      · omega
      · intro i hi
        have hi' : i < cmsTopn.sketchDepth := hi
        show CmsTopnEstimateHashedItemFrequency cmsTopn (hash newItem) + 1
          ≤ (UpdateCountMinSketch hash cmsTopn newItem).1.sketch
              (sketchCounterIndex cmsTopn.sketchWidth (hash newItem) i)
        rw [UpdateCountMinSketch_sketch_apply,
          if_pos ⟨i, List.mem_range.mpr hi', rfl⟩, hnf]
        exact le_max_right _ _
    exact le_trans (Nat.min_le_left _ _) h1

/-!
## Add sequences
-/

/-- Unfolding one add of the sequence. -/
theorem cmsAddSeq_cons {α : Type} [DecidableEq α] (hash : α → Nat × Nat)
    (y : α) (L : List α) (cmsTopn : CmsTopn α) :
    cmsAddSeq hash (y :: L) cmsTopn = cmsAddSeq hash L (CmsTopnAddItem hash cmsTopn y) := rfl

/-- Add sequences preserve the sketch depth. -/
theorem cmsAddSeq_sketchDepth {α : Type} [DecidableEq α] (hash : α → Nat × Nat) :
    ∀ (L : List α) (cmsTopn : CmsTopn α),
      (cmsAddSeq hash L cmsTopn).sketchDepth = cmsTopn.sketchDepth := by
  intro L
  induction L with
  | nil => intro cms; rfl
  | cons y L ih =>
    intro cms
    rw [cmsAddSeq_cons, ih, CmsTopnAddItem_sketchDepth]

/-- Add sequences preserve the sketch width. -/
theorem cmsAddSeq_sketchWidth {α : Type} [DecidableEq α] (hash : α → Nat × Nat) :
    ∀ (L : List α) (cmsTopn : CmsTopn α),
      (cmsAddSeq hash L cmsTopn).sketchWidth = cmsTopn.sketchWidth := by
  intro L
  induction L with
  | nil => intro cms; rfl
  | cons y L ih =>
    intro cms
    rw [cmsAddSeq_cons, ih, CmsTopnAddItem_sketchWidth]

/-- The consulted counter of row i after a full add. -/
theorem CmsTopnAddItem_cell_value {α : Type} [DecidableEq α] (hash : α → Nat × Nat)
    (cmsTopn : CmsTopn α) (newItem : α) (i : Nat) (hi : i < cmsTopn.sketchDepth) :
    (CmsTopnAddItem hash cmsTopn newItem).sketch
        (sketchCounterIndex cmsTopn.sketchWidth (hash newItem) i)
      = max (cmsTopn.sketch (sketchCounterIndex cmsTopn.sketchWidth (hash newItem) i))
          ((CmsTopnEstimateHashedItemFrequency cmsTopn (hash newItem) + 1) % 2 ^ 64) := by
  rw [congrFun (CmsTopnAddItem_sketch hash cmsTopn newItem) _,
    UpdateCountMinSketch_sketch_apply, if_pos ⟨i, List.mem_range.mpr hi, rfl⟩]

/-- Counters outside the consulted set are untouched by a full add. -/
theorem CmsTopnAddItem_cell_other {α : Type} [DecidableEq α] (hash : α → Nat × Nat)
    (cmsTopn : CmsTopn α) (newItem : α) (j : Nat)
    (hj : ∀ i, i < cmsTopn.sketchDepth →
      sketchCounterIndex cmsTopn.sketchWidth (hash newItem) i ≠ j) :
    (CmsTopnAddItem hash cmsTopn newItem).sketch j = cmsTopn.sketch j := by
  rw [congrFun (CmsTopnAddItem_sketch hash cmsTopn newItem) _,
    UpdateCountMinSketch_sketch_apply,
    if_neg (fun h => by
      obtain ⟨i, hi, he⟩ := h
      exact hj i (List.mem_range.mp hi) he)]

/-- After any add sequence, an item's estimate is at least the minimum of
its initial estimate plus its count and MAX_FREQUENCY. -/
theorem count_le_estimate_addSeq {α : Type} [DecidableEq α] (hash : α → Nat × Nat) :
    ∀ (L : List α) (cmsTopn : CmsTopn α) (x : α),
      min (CmsTopnEstimateItemFrequency hash cmsTopn x + L.count x) MAX_FREQUENCY
        ≤ CmsTopnEstimateItemFrequency hash (cmsAddSeq hash L cmsTopn) x := by
  intro L
  induction L with
  | nil =>
    intro cms x
    have h := estimateHashed_le_MAX cms (hash x)
    simp only [cmsAddSeq, List.foldl_nil, List.count_nil, Nat.add_zero,
      CmsTopnEstimateItemFrequency]
    omega
  | cons y L ih =>
    intro cms x
    rw [cmsAddSeq_cons]
    have hadd_eq : CmsTopnEstimateHashedItemFrequency (CmsTopnAddItem hash cms y) (hash x)
        = CmsTopnEstimateHashedItemFrequency (UpdateCountMinSketch hash cms y).1 (hash x) :=
      estimateHashed_congr _ _ _ (CmsTopnAddItem_sketchDepth hash cms y)
        (CmsTopnAddItem_sketchWidth hash cms y)
        (fun j => congrFun (CmsTopnAddItem_sketch hash cms y) j)
    have hIH := ih (CmsTopnAddItem hash cms y) x
    simp only [CmsTopnEstimateItemFrequency] at hIH ⊢
    rw [hadd_eq] at hIH
    by_cases hxy : x = y
    · subst hxy
      have hbump := estimateHashed_after_update_self hash cms x
      have hcnt : (x :: L).count x = L.count x + 1 := by simp
      rw [hcnt]
      omega
    · have hcnt : (y :: L).count x = L.count x := by
        simp [List.count_cons, hxy]
      have hmono : CmsTopnEstimateHashedItemFrequency cms (hash x)
          ≤ CmsTopnEstimateHashedItemFrequency (UpdateCountMinSketch hash cms y).1 (hash x) :=
        estimateHashed_mono cms (UpdateCountMinSketch hash cms y).1 (hash x) rfl rfl
          (fun j => UpdateCountMinSketch_sketch_ge hash cms y j)
      rw [hcnt]
      omega

/-- List.range D is nonempty for positive D. -/
theorem range_ne_nil_of_pos (D : Nat) (hD : 1 ≤ D) : List.range D ≠ [] := by
  simp only [ne_eq, List.range_eq_nil]
  omega

/-- One conservative-update step on a counter holding min k MAX_FREQUENCY:
the written value is min (k+1) MAX_FREQUENCY (with wrap-around to 0 ignored
by the max at the saturated point). -/
theorem max_min_saturating_step (k : Nat) :
    max (min k MAX_FREQUENCY) ((min k MAX_FREQUENCY + 1) % 2 ^ 64)
      = min (k + 1) MAX_FREQUENCY := by
  have hm : MAX_FREQUENCY = 2 ^ 64 - 1 := rfl
  rcases Nat.lt_or_ge k MAX_FREQUENCY with hk | hk
  · have h1 : min k MAX_FREQUENCY = k := by omega
    have h2 : (k + 1) % 2 ^ 64 = k + 1 := Nat.mod_eq_of_lt (by omega)
    rw [h1, h2]
    omega
  · have h1 : min k MAX_FREQUENCY = MAX_FREQUENCY := by omega
    have h2 : (MAX_FREQUENCY + 1) % 2 ^ 64 = 0 := by norm_num [MAX_FREQUENCY]
    rw [h1, h2]
    omega

/-- Absorption of the MAX_FREQUENCY start into a capped minimum. -/
theorem min_MAX_absorb (k : Nat) :
    min MAX_FREQUENCY (min k MAX_FREQUENCY) = min k MAX_FREQUENCY := by
  omega

/-- After an add sequence starting from counters that all hold
min k MAX_FREQUENCY at the rows consulted for x, and in which every added
item is x itself or consults disjoint counters, the counters consulted for x
hold min (k + count) MAX_FREQUENCY. -/
theorem addSeq_isolated_cells {α : Type} [DecidableEq α] (hash : α → Nat × Nat)
    (D W : Nat) :
    ∀ (L : List α) (cmsTopn : CmsTopn α) (x : α) (k : Nat),
      cmsTopn.sketchDepth = D → cmsTopn.sketchWidth = W → 1 ≤ D →
      (∀ y ∈ L, y = x ∨ ∀ i i', i < D → i' < D →
        sketchCounterIndex W (hash y) i ≠ sketchCounterIndex W (hash x) i') →
      (∀ i, i < D → cmsTopn.sketch (sketchCounterIndex W (hash x) i)
        = min k MAX_FREQUENCY) →
      ∀ i, i < D →
        (cmsAddSeq hash L cmsTopn).sketch (sketchCounterIndex W (hash x) i)
          = min (k + L.count x) MAX_FREQUENCY := by
  intro L
  induction L with
  | nil =>
    intro cms x k _ _ _ _ hcells i hi
    simpa [cmsAddSeq] using hcells i hi
  | cons y L ih =>
    intro cms x k hd hw hD hdisj hcells i hi
    rw [cmsAddSeq_cons]
    have hd' : (CmsTopnAddItem hash cms y).sketchDepth = D := by
      rw [CmsTopnAddItem_sketchDepth, hd]
    have hw' : (CmsTopnAddItem hash cms y).sketchWidth = W := by
      rw [CmsTopnAddItem_sketchWidth, hw]
    have hdisj' : ∀ y' ∈ L, y' = x ∨ ∀ i i', i < D → i' < D →
        sketchCounterIndex W (hash y') i ≠ sketchCounterIndex W (hash x) i' :=
      fun y' hy' => hdisj y' (List.mem_cons_of_mem y hy')
    by_cases hxy : y = x
    · subst hxy
      -- the added item is x itself: every consulted counter moves to min (k+1)
      have hest : CmsTopnEstimateHashedItemFrequency cms (hash y) = min k MAX_FREQUENCY := by
        unfold CmsTopnEstimateHashedItemFrequency
        rw [hd, hw]
        rw [foldlMin_const _ (min k MAX_FREQUENCY) _ _
          (fun i hi => hcells i (List.mem_range.mp hi)) (range_ne_nil_of_pos D hD)]
        exact min_MAX_absorb k
      have hcells2 : ∀ i', i' < D →
          (CmsTopnAddItem hash cms y).sketch (sketchCounterIndex W (hash y) i')
            = min (k + 1) MAX_FREQUENCY := by
        intro i' hi'
        have hiw : sketchCounterIndex W (hash y) i'
            = sketchCounterIndex cms.sketchWidth (hash y) i' := by rw [hw]
        rw [hiw, CmsTopnAddItem_cell_value hash cms y i' (by rw [hd]; exact hi'), ← hiw,
          hcells i' hi', hest]
        exact max_min_saturating_step k
      have hfin := ih (CmsTopnAddItem hash cms y) y (k + 1) hd' hw' hD hdisj' hcells2 i hi
      have hcnt : (y :: L).count y = L.count y + 1 := by simp
      rw [hfin, hcnt, show k + (L.count y + 1) = k + 1 + L.count y from by ring]
    · -- a disjoint item: the counters consulted for x are untouched
      have hdy := hdisj y (List.mem_cons_self y L)
      have hdy' : ∀ i i', i < D → i' < D →
          sketchCounterIndex W (hash y) i ≠ sketchCounterIndex W (hash x) i' := by
        rcases hdy with h | h
        · exact absurd h hxy
        · exact h
      have hcells2 : ∀ i', i' < D →
          (CmsTopnAddItem hash cms y).sketch (sketchCounterIndex W (hash x) i')
            = min k MAX_FREQUENCY := by
        intro i' hi'
        rw [CmsTopnAddItem_cell_other hash cms y _ (fun i'' hi'' => by
          rw [hw]
          exact hdy' i'' i' (by rw [← hd]; exact hi'') hi')]
        exact hcells i' hi'
      have hfin := ih (CmsTopnAddItem hash cms y) x k hd' hw' hD hdisj' hcells2 i hi
      have hcnt : (y :: L).count x = L.count x := by
        simp [List.count_cons, Ne.symm hxy]
      rw [hfin, hcnt]

/-- Starting from a fresh sketch, an isolated item's estimate equals
min count MAX_FREQUENCY. -/
theorem estimate_addSeq_isolated {α : Type} [DecidableEq α] (hash : α → Nat × Nat)
    (D W N : Nat) (L : List α) (x : α) (hD : 1 ≤ D)
    (hdisj : ∀ y ∈ L, y = x ∨ ∀ i i', i < D → i' < D →
      sketchCounterIndex W (hash y) i ≠ sketchCounterIndex W (hash x) i') :
    CmsTopnEstimateItemFrequency hash (cmsAddSeq hash L (freshCmsTopn α D W N)) x
      = min (L.count x) MAX_FREQUENCY := by
  have hcells := addSeq_isolated_cells hash D W L (freshCmsTopn α D W N) x 0 rfl rfl hD hdisj
    (fun i _ => by simp [freshCmsTopn])
  have hdepth : (cmsAddSeq hash L (freshCmsTopn α D W N)).sketchDepth = D := by
    rw [cmsAddSeq_sketchDepth]; rfl
  have hwidth : (cmsAddSeq hash L (freshCmsTopn α D W N)).sketchWidth = W := by
    rw [cmsAddSeq_sketchWidth]; rfl
  simp only [CmsTopnEstimateItemFrequency]
  unfold CmsTopnEstimateHashedItemFrequency
  rw [hdepth, hwidth]
  rw [foldlMin_const _ (min (0 + L.count x) MAX_FREQUENCY) _ _
    (fun i hi => hcells i (List.mem_range.mp hi)) (range_ne_nil_of_pos D hD),
    show 0 + L.count x = L.count x from by ring]
  exact min_MAX_absorb (L.count x)

/-!
## The top-n scan and the union sketch
-/

/-- When the candidate is nowhere in the scanned list, the scan reaches the
end with candidateAlreadyInArray = false, and its running minimum is the
fold of min over the re-estimated frequencies. -/
theorem scanTopn_not_found {α : Type} [DecidableEq α] (hash : α → Nat × Nat)
    (cmsTopn : CmsTopn α) (candidateItem : α) :
    ∀ (l : List α) (topnItemIndex : Nat) (minOfNew : Nat) (minIndex : Int),
      (∀ y ∈ l, y ≠ candidateItem) →
      (_scanTopn hash cmsTopn candidateItem l topnItemIndex minOfNew minIndex).1
          = l.foldl (fun m y => min m (CmsTopnEstimateItemFrequency hash cmsTopn y)) minOfNew
        ∧ (_scanTopn hash cmsTopn candidateItem l topnItemIndex minOfNew minIndex).2.2
          = false := by
  intro l
  induction l with
  | nil => intro idx m mi _; exact ⟨rfl, rfl⟩
  | cons z l ih =>
    intro idx m mi hne
    have hz : z ≠ candidateItem := hne z (List.mem_cons_self z l)
    simp only [_scanTopn, if_neg hz]
    have hmin : (if CmsTopnEstimateItemFrequency hash cmsTopn z < m
          then CmsTopnEstimateItemFrequency hash cmsTopn z else m)
        = min m (CmsTopnEstimateItemFrequency hash cmsTopn z) := by
      rcases Nat.lt_or_ge (CmsTopnEstimateItemFrequency hash cmsTopn z) m with h | h
      · rw [if_pos h, Nat.min_eq_right (Nat.le_of_lt h)]
      · rw [if_neg (Nat.not_lt.mpr h), Nat.min_eq_left h]
    rw [List.foldl_cons, ← hmin]
    exact ih (idx + 1) _ _ (fun y hy => hne y (List.mem_cons_of_mem z hy))

/-- The offers performed by a union never modify the sketch. -/
theorem offerFold_sketch {α : Type} [DecidableEq α] (hash : α → Nat × Nat) :
    ∀ (l : List α) (cmsTopn : CmsTopn α),
      (l.foldl (fun cms topnItem =>
          (UpdateTopnArray hash cms topnItem
            (CmsTopnEstimateItemFrequency hash cms topnItem)).1) cmsTopn).sketch
        = cmsTopn.sketch := by
  intro l
  induction l with
  | nil => intro cms; rfl
  | cons z l ih =>
    intro cms
    rw [List.foldl_cons, ih, UpdateTopnArray_sketch]

/-- The counters of a union: elementwise uint64 sum of the two sketches over
the first operand's geometry, everything else untouched. -/
theorem CmsTopnUnion_sketch {α : Type} [DecidableEq α] (hash : α → Nat × Nat)
    (firstCmsTopn secondCmsTopn : CmsTopn α) (j : Nat) :
    (CmsTopnUnion hash firstCmsTopn secondCmsTopn).sketch j
      = if j < firstCmsTopn.sketchDepth * firstCmsTopn.sketchWidth
        then (firstCmsTopn.sketch j + secondCmsTopn.sketch j) % 2 ^ 64
        else firstCmsTopn.sketch j := by
  show (secondCmsTopn.topnArray.foldl (fun cms topnItem =>
      (UpdateTopnArray hash cms topnItem
        (CmsTopnEstimateItemFrequency hash cms topnItem)).1) _).sketch j = _
  rw [offerFold_sketch]

/-!
## Population count
-/

/-- Any fuel at least the mask computes the bit count. -/
theorem countSetBitsAux_eq :
    ∀ (fuel : Nat), ∀ (mask : Nat), mask ≤ fuel →
      _countSetBitsAux fuel mask = _countSetBits mask := by
  intro fuel
  induction fuel using Nat.strong_induction_on with
  | _ fuel ih =>
    intro mask hm
    cases fuel with
    | zero =>
      have h0 : mask = 0 := Nat.le_zero.mp hm
      subst h0; rfl
    | succ f =>
      by_cases h0 : mask = 0
      · subst h0; rfl
      · have hstep : _countSetBitsAux (f + 1) mask
            = (mask &&& 1) + _countSetBitsAux f (mask >>> 1) := by
          simp [_countSetBitsAux, h0]
        have hdiv : mask >>> 1 < mask := by
          rw [Nat.shiftRight_one]
          exact Nat.div_lt_self (Nat.pos_of_ne_zero h0) one_lt_two
        have h1 : _countSetBitsAux f (mask >>> 1) = _countSetBits (mask >>> 1) :=
          ih f (Nat.lt_succ_self f) (mask >>> 1) (by omega)
        obtain ⟨k, rfl⟩ : ∃ k, mask = k + 1 := ⟨mask - 1, by omega⟩
        have hstep2 : _countSetBits (k + 1)
            = ((k + 1) &&& 1) + _countSetBitsAux k ((k + 1) >>> 1) := by
          simp [_countSetBits, _countSetBitsAux]
        have h2 : _countSetBitsAux k ((k + 1) >>> 1) = _countSetBits ((k + 1) >>> 1) :=
          ih k (by omega) ((k + 1) >>> 1) (by omega)
        rw [hstep, h1, hstep2, h2]

/-- The recurrence of the bit-count loop. -/
theorem countSetBits_rec (mask : Nat) (h0 : mask ≠ 0) :
    _countSetBits mask = (mask &&& 1) + _countSetBits (mask >>> 1) := by
  obtain ⟨k, rfl⟩ : ∃ k, mask = k + 1 := ⟨mask - 1, by omega⟩
  have hstep2 : _countSetBits (k + 1)
      = ((k + 1) &&& 1) + _countSetBitsAux k ((k + 1) >>> 1) := by
    simp [_countSetBits, _countSetBitsAux]
  have hdiv : (k + 1) >>> 1 ≤ k := by
    rw [Nat.shiftRight_one]
    omega
  rw [hstep2, countSetBitsAux_eq k ((k + 1) >>> 1) hdiv]

/-- A mask below 2 ^ w has at most w set bits, with exactly w only for the
all-ones mask. -/
theorem countSetBits_bound :
    ∀ (w : Nat) (c : Nat), c < 2 ^ w →
      _countSetBits c ≤ w ∧ (_countSetBits c = w → c = 2 ^ w - 1) := by
  intro w
  induction w with
  | zero =>
    intro c hc
    have h0 : c = 0 := by omega
    subst h0
    exact ⟨Nat.le_refl 0, fun _ => by omega⟩
  | succ w ih =>
    intro c hc
    by_cases h0 : c = 0
    · subst h0
      have hz : _countSetBits 0 = 0 := rfl
      exact ⟨by omega, fun h => by omega⟩
    · have hrec := countSetBits_rec c h0
      have hdiv2 : c >>> 1 = c / 2 := Nat.shiftRight_one c
      have hmod : c &&& 1 = c % 2 := Nat.and_one_is_mod c
      have hpow : 2 ^ (w + 1) = 2 * 2 ^ w := by ring
      have hhalf : c / 2 < 2 ^ w := by omega
      obtain ⟨hle, hext⟩ := ih (c / 2) hhalf
      rw [hrec, hdiv2, hmod]
      constructor
      · omega
      · intro h
        have h1 : c % 2 = 1 := by omega
        have h2 : _countSetBits (c / 2) = w := by omega
        have h3 := hext h2
        have h5 : 1 ≤ 2 ^ w := Nat.one_le_two_pow
        omega

/-!
## The selection sort of topn
-/

/-- Specification of the inner scan: the result frequency dominates the
start and every scanned entry, and the result is the untouched start pair or
points at a scanned entry holding the result frequency (j-shifted). -/
theorem findMaxFrom_spec {α : Type} :
    ∀ (ys : List (α × Nat)) (maxF maxI j : Nat),
      maxF ≤ (_findMaxFrom maxF maxI j ys).1
      ∧ (∀ y ∈ ys, y.2 ≤ (_findMaxFrom maxF maxI j ys).1)
      ∧ ((_findMaxFrom maxF maxI j ys) = (maxF, maxI)
          ∨ ∃ k y, ys[k]? = some y ∧ (_findMaxFrom maxF maxI j ys).2 = j + k
              ∧ (_findMaxFrom maxF maxI j ys).1 = y.2) := by
  intro ys
  induction ys with
  | nil => intro maxF maxI j; exact ⟨le_refl _, by simp, Or.inl rfl⟩
  | cons z t ih =>
    intro maxF maxI j
    simp only [_findMaxFrom]
    by_cases hz : maxF < z.2
    · rw [if_pos hz]
      obtain ⟨h1, h2, h3⟩ := ih z.2 j (j + 1)
      refine ⟨le_trans (Nat.le_of_lt hz) h1, ?_, ?_⟩
      · intro y hy
        rcases List.mem_cons.mp hy with h | h
        · rw [h]; exact h1
        · exact h2 y h
      · right
        rcases h3 with he | ⟨k, y, hk, hidx, hF⟩
        · exact ⟨0, z, by simp, by simp [he], by simp [he]⟩
        · exact ⟨k + 1, y, by simpa using hk, by omega, hF⟩
    · rw [if_neg hz]
      obtain ⟨h1, h2, h3⟩ := ih maxF maxI (j + 1)
      refine ⟨h1, ?_, ?_⟩
      · intro y hy
        rcases List.mem_cons.mp hy with h | h
        · rw [h]; exact le_trans (Nat.not_lt.mp hz) h1
        · exact h2 y h
      · rcases h3 with he | ⟨k, y, hk, hidx, hF⟩
        · left; exact he
        · right; exact ⟨k + 1, y, by simpa using hk, by omega, hF⟩

/-- Swapping a selected element to the front is a permutation. -/
theorem cons_set_perm {β : Type} :
    ∀ (xs : List β) (k : Nat) (x y : β), xs[k]? = some y →
      List.Perm (y :: xs.set k x) (x :: xs) := by
  intro xs
  induction xs with
  | nil => intro k x y h; simp at h
  | cons z t ih =>
    intro k x y h
    cases k with
    | zero =>
      simp only [List.getElem?_cons_zero, Option.some.injEq] at h
      subst h
      simpa using List.Perm.swap x z t
    | succ k =>
      simp only [List.getElem?_cons_succ] at h
      have h1 : List.Perm (y :: z :: t.set k x) (z :: y :: t.set k x) :=
        List.Perm.swap z y _
      have h2 : List.Perm (z :: y :: t.set k x) (z :: x :: t) :=
        List.Perm.cons z (ih k x y h)
      have h3 : List.Perm (z :: x :: t) (x :: z :: t) := List.Perm.swap x z _
      exact h1.trans (h2.trans h3)

/-- The selection sort returns a permutation of its input, sorted descending
by the frequency component. -/
theorem sortTopnItems_spec {α : Type} :
    ∀ (n : Nat) (l : List (α × Nat)), l.length ≤ n →
      List.Perm (_sortTopnItems l) l
        ∧ List.Sorted (fun p q : α × Nat => q.2 ≤ p.2) (_sortTopnItems l) := by
  intro n
  induction n with
  | zero =>
    intro l hl
    have h0 : l = [] := List.length_eq_zero.mp (Nat.le_zero.mp hl)
    subst h0
    have hnil : _sortTopnItems ([] : List (α × Nat)) = [] := by simp [_sortTopnItems]
    rw [hnil]
    exact ⟨List.Perm.refl _, by simp⟩
  | succ n ih =>
    intro l hl
    match l with
    | [] =>
      have hnil : _sortTopnItems ([] : List (α × Nat)) = [] := by simp [_sortTopnItems]
      rw [hnil]
      exact ⟨List.Perm.refl _, by simp⟩
    | x :: xs =>
      obtain ⟨hmaxF, hmax_all, hpos⟩ := findMaxFrom_spec xs x.2 0 1
      have hxs : xs.length ≤ n := by
        have := hl
        simp only [List.length_cons] at this
        omega
      have hsort : _sortTopnItems (x :: xs)
          = if (_findMaxFrom x.2 0 1 xs).2 = 0 then x :: _sortTopnItems xs
            else xs.getD ((_findMaxFrom x.2 0 1 xs).2 - 1) x
              :: _sortTopnItems (xs.set ((_findMaxFrom x.2 0 1 xs).2 - 1) x) := by
        simp only [_sortTopnItems]
      by_cases hm : (_findMaxFrom x.2 0 1 xs).2 = 0
      · -- the head already holds the maximum frequency
        have hF : (_findMaxFrom x.2 0 1 xs).1 = x.2 := by
          rcases hpos with he | ⟨k, y, _, hidx, _⟩
          · rw [he]
          · omega
        obtain ⟨hperm, hsorted⟩ := ih xs hxs
        rw [hsort, if_pos hm]
        refine ⟨List.Perm.cons x hperm, List.sorted_cons.mpr ⟨?_, hsorted⟩⟩
        intro b hb
        have hbxs : b ∈ xs := (hperm.mem_iff).mp hb
        have := hmax_all b hbxs
        omega
      · -- a strictly larger frequency sits at position m - 1 of xs
        rcases hpos with he | ⟨k, y, hk, hidx, hF⟩
        · exfalso; rw [he] at hm; exact hm rfl
        have hk1 : (_findMaxFrom x.2 0 1 xs).2 - 1 = k := by omega
        have hget : xs.getD ((_findMaxFrom x.2 0 1 xs).2 - 1) x = y := by
          rw [hk1, List.getD_eq_getElem?_getD, hk]
          rfl
        have hlen : (xs.set k x).length ≤ n := by
          simpa [List.length_set] using hxs
        obtain ⟨hperm, hsorted⟩ := ih (xs.set k x) hlen
        rw [hsort, if_neg hm, hget, hk1]
        constructor
        · exact (List.Perm.cons y hperm).trans (cons_set_perm xs k x y hk)
        · refine List.sorted_cons.mpr ⟨?_, hsorted⟩
          intro b hb
          have hbset : b ∈ xs.set k x := (hperm.mem_iff).mp hb
          rcases List.mem_or_eq_of_mem_set hbset with hbxs | hbx
          · have := hmax_all b hbxs
            omega
          · subst hbx
            omega

/-!
## Claim theorems
-/

/-- C3 (amended): a union's matrix holds, in every cell of the sketch, the
sum of the two operands' corresponding cells reduced modulo 2 ^ 64 (uint64
addition), which is the exact sum whenever that sum is below 2 ^ 64; in the
spec's example -- item (1,1) added three times into one 2 x 3 sketch and
twice into another of the same geometry -- the union succeeds and estimates
(1,1) at 5. -/
theorem cmsTopnUnion_elementwise_sum {α : Type} [DecidableEq α] (hash : α → Nat × Nat)
    (firstCmsTopn secondCmsTopn : CmsTopn α) (j : Nat)
    (hj : j < firstCmsTopn.sketchDepth * firstCmsTopn.sketchWidth) :
    (CmsTopnUnion hash firstCmsTopn secondCmsTopn).sketch j
        = (firstCmsTopn.sketch j + secondCmsTopn.sketch j) % 2 ^ 64
    ∧ (firstCmsTopn.sketch j + secondCmsTopn.sketch j < 2 ^ 64 →
        (CmsTopnUnion hash firstCmsTopn secondCmsTopn).sketch j
          = firstCmsTopn.sketch j + secondCmsTopn.sketch j)
    ∧ exceptIsError (cms_topn_union id unionExampleA unionExampleB) = false
    ∧ CmsTopnEstimateItemFrequency id (CmsTopnUnion id unionExampleA unionExampleB) (1, 1)
        = 5 := by
  have h1 : (CmsTopnUnion hash firstCmsTopn secondCmsTopn).sketch j
      = (firstCmsTopn.sketch j + secondCmsTopn.sketch j) % 2 ^ 64 := by
    rw [CmsTopnUnion_sketch, if_pos hj]
  refine ⟨h1, fun hlt => ?_, by decide, by decide⟩
  rw [h1, Nat.mod_eq_of_lt hlt]

/-- C3 counterexample: with both operands' only counter at 2 ^ 63, the
union's counter wraps to 0 rather than holding the sum 2 ^ 64. -/
theorem cmsTopnUnion_sum_overflow_cex :
    (CmsTopnUnion natHash halfRangeCms halfRangeCms).sketch 0 = 0
    ∧ halfRangeCms.sketch 0 + halfRangeCms.sketch 0 = 2 ^ 64
    ∧ (CmsTopnUnion natHash halfRangeCms halfRangeCms).sketch 0
        ≠ halfRangeCms.sketch 0 + halfRangeCms.sketch 0 :=
  ⟨by decide, by decide, by decide⟩

/-- C3 witness: the union theorem instantiated at two fresh 1 x 3 sketches
and cell 0. -/
theorem cmsTopnUnion_elementwise_sum_witness :
    (0 : Nat) < (freshCmsTopn Nat 1 3 1).sketchDepth * (freshCmsTopn Nat 1 3 1).sketchWidth
    ∧ ((CmsTopnUnion natHash (freshCmsTopn Nat 1 3 1) (freshCmsTopn Nat 1 3 1)).sketch 0
          = ((freshCmsTopn Nat 1 3 1).sketch 0 + (freshCmsTopn Nat 1 3 1).sketch 0) % 2 ^ 64
      ∧ ((freshCmsTopn Nat 1 3 1).sketch 0 + (freshCmsTopn Nat 1 3 1).sketch 0 < 2 ^ 64 →
          (CmsTopnUnion natHash (freshCmsTopn Nat 1 3 1) (freshCmsTopn Nat 1 3 1)).sketch 0
            = (freshCmsTopn Nat 1 3 1).sketch 0 + (freshCmsTopn Nat 1 3 1).sketch 0)
      ∧ exceptIsError (cms_topn_union id unionExampleA unionExampleB) = false
      ∧ CmsTopnEstimateItemFrequency id (CmsTopnUnion id unionExampleA unionExampleB) (1, 1)
          = 5) :=
  ⟨by decide,
    cmsTopnUnion_elementwise_sum natHash (freshCmsTopn Nat 1 3 1) (freshCmsTopn Nat 1 3 1) 0
      (by decide)⟩

/-- C6: CreateCmsTopn fails exactly when the top-n capacity is non-positive
or errorBound/confidenceInterval lie outside the open interval (0,1), the
boundaries included; on success the returned structure is exactly the
freshly zeroed sketch (no partial structure exists on the failure paths,
which return before anything is built). -/
theorem createCmsTopn_validation (α : Type) (sketchDepth sketchWidth : Nat)
    (topnItemCount : Int) (errorBound confidenceInterval : ℚ) :
    (exceptIsError (CreateCmsTopn α sketchDepth sketchWidth topnItemCount
          errorBound confidenceInterval) = true
        ↔ (topnItemCount ≤ 0 ∨ errorBound ≤ 0 ∨ 1 ≤ errorBound
            ∨ confidenceInterval ≤ 0 ∨ 1 ≤ confidenceInterval))
    ∧ (∀ s, CreateCmsTopn α sketchDepth sketchWidth topnItemCount
          errorBound confidenceInterval = Except.ok s →
        s = freshCmsTopn α sketchDepth sketchWidth topnItemCount.toNat)
    ∧ (∀ s, CreateCmsTopn α sketchDepth sketchWidth topnItemCount
          errorBound confidenceInterval = Except.ok s →
        (∀ j, s.sketch j = 0) ∧ s.topnArray = []
          ∧ s.minFrequencyOfTopnItems = MAX_FREQUENCY) := by
  by_cases h1 : topnItemCount ≤ 0
  · simp [CreateCmsTopn, h1, exceptIsError]
  · by_cases h2 : errorBound ≤ 0 ∨ 1 ≤ errorBound
    · simp [CreateCmsTopn, h1, h2, exceptIsError]
      tauto
    · by_cases h3 : confidenceInterval ≤ 0 ∨ 1 ≤ confidenceInterval
      · simp [CreateCmsTopn, h1, h2, h3, exceptIsError]
      · refine ⟨?_, ?_, ?_⟩
        · simp [CreateCmsTopn, h1, h2, h3, exceptIsError]
        · intro s hs
          simp [CreateCmsTopn, h1, h2, h3] at hs
          exact hs.symm
        · intro s hs
          simp [CreateCmsTopn, h1, h2, h3] at hs
          subst hs
          exact ⟨fun j => rfl, rfl, rfl⟩

/-- C6 witness: an errorBound of 2 is rejected, and with valid parameters
1/2, 1/2 the created sketch is the fresh zeroed structure whose counter 7 is
zero. -/
theorem createCmsTopn_validation_witness :
    exceptIsError (CreateCmsTopn Nat 1 3 1 2 (1/2)) = true
    ∧ CreateCmsTopn Nat 1 3 1 (1/2) (1/2) = Except.ok (freshCmsTopn Nat 1 3 1)
    ∧ (freshCmsTopn Nat 1 3 1 : CmsTopn Nat).sketch 7 = 0 := by
  have hok : CreateCmsTopn Nat 1 3 1 (1/2) (1/2) = Except.ok (freshCmsTopn Nat 1 3 1) := by
    norm_num [CreateCmsTopn]
  refine ⟨(createCmsTopn_validation Nat 1 3 1 2 (1/2)).1.mpr (by norm_num), hok, ?_⟩
  exact ((createCmsTopn_validation Nat 1 3 1 (1/2) (1/2)).2.2 _ hok).1 7

/-- C7: a union of two sketches whose depth, width or tracker capacity
differ fails with the parameters-mismatch error (the guard precedes every
mutation in cms_topn_union, so no operand is written on this path). -/
theorem cms_topn_union_mismatch {α : Type} [DecidableEq α] (hash : α → Nat × Nat)
    (firstCmsTopn secondCmsTopn : CmsTopn α)
    (hmm : firstCmsTopn.sketchDepth ≠ secondCmsTopn.sketchDepth
      ∨ firstCmsTopn.sketchWidth ≠ secondCmsTopn.sketchWidth
      ∨ firstCmsTopn.topnItemCount ≠ secondCmsTopn.topnItemCount) :
    cms_topn_union hash firstCmsTopn secondCmsTopn
      = Except.error CmsTopnError.mergeParametersMismatch := by
  unfold cms_topn_union
  rw [if_pos hmm]

/-- C7 witness: sketches of widths 3 and 4 cannot be merged. -/
theorem cms_topn_union_mismatch_witness :
    ((freshCmsTopn Nat 1 3 1).sketchDepth ≠ (freshCmsTopn Nat 1 4 1).sketchDepth
      ∨ (freshCmsTopn Nat 1 3 1).sketchWidth ≠ (freshCmsTopn Nat 1 4 1).sketchWidth
      ∨ (freshCmsTopn Nat 1 3 1).topnItemCount ≠ (freshCmsTopn Nat 1 4 1).topnItemCount)
    ∧ cms_topn_union natHash (freshCmsTopn Nat 1 3 1) (freshCmsTopn Nat 1 4 1)
        = Except.error CmsTopnError.mergeParametersMismatch :=
  ⟨by decide,
    cms_topn_union_mismatch natHash (freshCmsTopn Nat 1 3 1) (freshCmsTopn Nat 1 4 1)
      (by decide)⟩

/-- C9: topn pairs every tracked item with its frequency re-estimated
against the live sketch at call time, and returns a permutation of those
pairs sorted descending by frequency. -/
theorem topnList_sorted_spec {α : Type} (hash : α → Nat × Nat) (cmsTopn : CmsTopn α)
    (_hne : cmsTopn.topnArray ≠ []) :
    List.Perm (topnList hash cmsTopn)
        (cmsTopn.topnArray.map (fun topnItem =>
          (topnItem, CmsTopnEstimateItemFrequency hash cmsTopn topnItem)))
    ∧ List.Sorted (fun p q : α × Nat => q.2 ≤ p.2) (topnList hash cmsTopn) :=
  sortTopnItems_spec
    (cmsTopn.topnArray.map (fun topnItem =>
      (topnItem, CmsTopnEstimateItemFrequency hash cmsTopn topnItem))).length
    _ (le_refl _)

/-- C9 witness: a capacity-2 tracker holding items 0 (estimate 4) and 1
(estimate 9). -/
theorem topnList_sorted_spec_witness :
    topnQueryCms.topnArray ≠ []
    ∧ (List.Perm (topnList natHash topnQueryCms)
          (topnQueryCms.topnArray.map (fun topnItem =>
            (topnItem, CmsTopnEstimateItemFrequency natHash topnQueryCms topnItem)))
      ∧ List.Sorted (fun p q : Nat × Nat => q.2 ≤ p.2) (topnList natHash topnQueryCms)) :=
  ⟨by simp [topnQueryCms], topnList_sorted_spec natHash topnQueryCms (by simp [topnQueryCms])⟩

/-- C10: the user-facing frequency query returns the internal 64-bit
minimum-counter estimate truncated to 32 bits: it equals the internal
estimate exactly when the estimate fits in 32 bits, and the estimate reduced
modulo 2 ^ 32 (hence a different value) otherwise. -/
theorem cms_topn_frequency_truncation {α : Type} (hash : α → Nat × Nat)
    (cmsTopn : CmsTopn α) (item : α) :
    cms_topn_frequency hash cmsTopn item
        = CmsTopnEstimateItemFrequency hash cmsTopn item % 2 ^ 32
    ∧ (CmsTopnEstimateItemFrequency hash cmsTopn item < 2 ^ 32 →
        cms_topn_frequency hash cmsTopn item
          = CmsTopnEstimateItemFrequency hash cmsTopn item)
    ∧ (2 ^ 32 ≤ CmsTopnEstimateItemFrequency hash cmsTopn item →
        cms_topn_frequency hash cmsTopn item
          ≠ CmsTopnEstimateItemFrequency hash cmsTopn item) := by
  refine ⟨rfl, fun h => Nat.mod_eq_of_lt h, fun h heq => ?_⟩
  have hlt : CmsTopnEstimateItemFrequency hash cmsTopn item % 2 ^ 32 < 2 ^ 32 :=
    Nat.mod_lt _ (by norm_num)
  rw [show cms_topn_frequency hash cmsTopn item
      = CmsTopnEstimateItemFrequency hash cmsTopn item % 2 ^ 32 from rfl] at heq
  omega

/-- C10 witness: a counter holding 2 ^ 32 produces the internal estimate
2 ^ 32 but the user-facing value 0. -/
theorem cms_topn_frequency_truncation_witness :
    2 ^ 32 ≤ CmsTopnEstimateItemFrequency natHash wideCountCms 0
    ∧ cms_topn_frequency natHash wideCountCms 0
        ≠ CmsTopnEstimateItemFrequency natHash wideCountCms 0
    ∧ cms_topn_frequency natHash wideCountCms 0 = 0 :=
  ⟨by decide,
    (cms_topn_frequency_truncation natHash wideCountCms 0).2.2 (by decide),
    by decide⟩

/-- C1 (amended): provided the item's current estimate is below
MAX_FREQUENCY (so the uint64 increment cannot wrap), add computes
currentEstimate as the minimum of the consulted counters (it is a lower
bound of all of them and attained by one of them), raises exactly those
counters to max(counter, currentEstimate + 1), leaves every other counter
unchanged, returns currentEstimate + 1, and immediately afterwards the
item's estimate equals the returned value (also through the full add that
updates the top-n structure). -/
theorem updateCountMinSketch_spec {α : Type} [DecidableEq α] (hash : α → Nat × Nat)
    (cmsTopn : CmsTopn α) (x : α)
    (hnosat : CmsTopnEstimateHashedItemFrequency cmsTopn (hash x) < MAX_FREQUENCY) :
    (UpdateCountMinSketch hash cmsTopn x).2
        = CmsTopnEstimateHashedItemFrequency cmsTopn (hash x) + 1
    ∧ (∀ i, i < cmsTopn.sketchDepth →
        CmsTopnEstimateHashedItemFrequency cmsTopn (hash x)
          ≤ cmsTopn.sketch (sketchCounterIndex cmsTopn.sketchWidth (hash x) i))
    ∧ (∃ i, i < cmsTopn.sketchDepth ∧
        CmsTopnEstimateHashedItemFrequency cmsTopn (hash x)
          = cmsTopn.sketch (sketchCounterIndex cmsTopn.sketchWidth (hash x) i))
    ∧ (∀ i, i < cmsTopn.sketchDepth →
        (UpdateCountMinSketch hash cmsTopn x).1.sketch
            (sketchCounterIndex cmsTopn.sketchWidth (hash x) i)
          = max (cmsTopn.sketch (sketchCounterIndex cmsTopn.sketchWidth (hash x) i))
              (CmsTopnEstimateHashedItemFrequency cmsTopn (hash x) + 1))
    ∧ (∀ j, (∀ i, i < cmsTopn.sketchDepth →
          sketchCounterIndex cmsTopn.sketchWidth (hash x) i ≠ j) →
        (UpdateCountMinSketch hash cmsTopn x).1.sketch j = cmsTopn.sketch j)
    ∧ CmsTopnEstimateHashedItemFrequency (UpdateCountMinSketch hash cmsTopn x).1 (hash x)
        = (UpdateCountMinSketch hash cmsTopn x).2
    ∧ CmsTopnEstimateItemFrequency hash (CmsTopnAddItem hash cmsTopn x) x
        = (UpdateCountMinSketch hash cmsTopn x).2 := by
  have hm : MAX_FREQUENCY = 2 ^ 64 - 1 := rfl
  have hnf : (CmsTopnEstimateHashedItemFrequency cmsTopn (hash x) + 1) % 2 ^ 64
      = CmsTopnEstimateHashedItemFrequency cmsTopn (hash x) + 1 :=
    Nat.mod_eq_of_lt (by omega)
  have hret : (UpdateCountMinSketch hash cmsTopn x).2
      = CmsTopnEstimateHashedItemFrequency cmsTopn (hash x) + 1 := by
    rw [UpdateCountMinSketch_newFrequency, hnf]
  have hattained : ∃ i, i < cmsTopn.sketchDepth ∧
      CmsTopnEstimateHashedItemFrequency cmsTopn (hash x)
        = cmsTopn.sketch (sketchCounterIndex cmsTopn.sketchWidth (hash x) i) := by
    rcases estimateHashed_attained cmsTopn (hash x) with h | h
    · omega
    · exact h
  have hcell : ∀ i, i < cmsTopn.sketchDepth →
      (UpdateCountMinSketch hash cmsTopn x).1.sketch
          (sketchCounterIndex cmsTopn.sketchWidth (hash x) i)
        = max (cmsTopn.sketch (sketchCounterIndex cmsTopn.sketchWidth (hash x) i))
            (CmsTopnEstimateHashedItemFrequency cmsTopn (hash x) + 1) := by
    intro i hi
    rw [UpdateCountMinSketch_sketch_apply, if_pos ⟨i, List.mem_range.mpr hi, rfl⟩, hnf]
  have hpost : CmsTopnEstimateHashedItemFrequency
      (UpdateCountMinSketch hash cmsTopn x).1 (hash x)
      = (UpdateCountMinSketch hash cmsTopn x).2 := by
    have hge := estimateHashed_after_update_self hash cmsTopn x
    have hle2 : CmsTopnEstimateHashedItemFrequency
        (UpdateCountMinSketch hash cmsTopn x).1 (hash x)
        ≤ CmsTopnEstimateHashedItemFrequency cmsTopn (hash x) + 1 := by
      obtain ⟨i0, hi0, heq0⟩ := hattained
      have hcell0 := hcell i0 hi0
      have hle3 := estimateHashed_le_cell (UpdateCountMinSketch hash cmsTopn x).1
        (hash x) i0 hi0
      rw [show (UpdateCountMinSketch hash cmsTopn x).1.sketchWidth
          = cmsTopn.sketchWidth from rfl] at hle3
      rw [hcell0] at hle3
      omega
    rw [hret]
    omega
  refine ⟨hret, fun i hi => estimateHashed_le_cell cmsTopn (hash x) i hi, hattained,
    hcell, ?_, hpost, ?_⟩
  · intro j hj
    rw [UpdateCountMinSketch_sketch_apply,
      if_neg (fun h => by
        obtain ⟨i, hi, he⟩ := h
        exact hj i (List.mem_range.mp hi) he)]
  · have hcongr : CmsTopnEstimateHashedItemFrequency (CmsTopnAddItem hash cmsTopn x) (hash x)
        = CmsTopnEstimateHashedItemFrequency
            (UpdateCountMinSketch hash cmsTopn x).1 (hash x) :=
      estimateHashed_congr _ _ _ (CmsTopnAddItem_sketchDepth hash cmsTopn x)
        (CmsTopnAddItem_sketchWidth hash cmsTopn x)
        (fun j => congrFun (CmsTopnAddItem_sketch hash cmsTopn x) j)
    show CmsTopnEstimateHashedItemFrequency (CmsTopnAddItem hash cmsTopn x) (hash x) = _
    rw [hcongr, hpost]

/-- C1 counterexample: on a sketch whose only counter is saturated at
MAX_FREQUENCY, add returns 0 (the uint64 wrap of MAX_FREQUENCY + 1) rather
than currentEstimate + 1, and afterwards the item's estimate is
MAX_FREQUENCY, not the returned value. -/
theorem updateCountMinSketch_saturation_cex :
    CmsTopnEstimateHashedItemFrequency saturatedCms (natHash 0) = MAX_FREQUENCY
    ∧ (UpdateCountMinSketch natHash saturatedCms 0).2 = 0
    ∧ (UpdateCountMinSketch natHash saturatedCms 0).2
        ≠ CmsTopnEstimateHashedItemFrequency saturatedCms (natHash 0) + 1
    ∧ CmsTopnEstimateHashedItemFrequency
        (UpdateCountMinSketch natHash saturatedCms 0).1 (natHash 0)
        ≠ (UpdateCountMinSketch natHash saturatedCms 0).2 :=
  ⟨by decide, by decide, by decide, by decide⟩

/-- C1 witness: the amended theorem at a fresh 2 x 3 sketch and item 0. -/
theorem updateCountMinSketch_spec_witness :
    CmsTopnEstimateHashedItemFrequency (freshCmsTopn Nat 2 3 1) (natHash 0) < MAX_FREQUENCY
    ∧ ((UpdateCountMinSketch natHash (freshCmsTopn Nat 2 3 1) 0).2
          = CmsTopnEstimateHashedItemFrequency (freshCmsTopn Nat 2 3 1) (natHash 0) + 1
      ∧ (∀ i, i < (freshCmsTopn Nat 2 3 1).sketchDepth →
          CmsTopnEstimateHashedItemFrequency (freshCmsTopn Nat 2 3 1) (natHash 0)
            ≤ (freshCmsTopn Nat 2 3 1).sketch
                (sketchCounterIndex (freshCmsTopn Nat 2 3 1).sketchWidth (natHash 0) i))
      ∧ (∃ i, i < (freshCmsTopn Nat 2 3 1).sketchDepth ∧
          CmsTopnEstimateHashedItemFrequency (freshCmsTopn Nat 2 3 1) (natHash 0)
            = (freshCmsTopn Nat 2 3 1).sketch
                (sketchCounterIndex (freshCmsTopn Nat 2 3 1).sketchWidth (natHash 0) i))
      ∧ (∀ i, i < (freshCmsTopn Nat 2 3 1).sketchDepth →
          (UpdateCountMinSketch natHash (freshCmsTopn Nat 2 3 1) 0).1.sketch
              (sketchCounterIndex (freshCmsTopn Nat 2 3 1).sketchWidth (natHash 0) i)
            = max ((freshCmsTopn Nat 2 3 1).sketch
                  (sketchCounterIndex (freshCmsTopn Nat 2 3 1).sketchWidth (natHash 0) i))
                (CmsTopnEstimateHashedItemFrequency (freshCmsTopn Nat 2 3 1) (natHash 0) + 1))
      ∧ (∀ j, (∀ i, i < (freshCmsTopn Nat 2 3 1).sketchDepth →
            sketchCounterIndex (freshCmsTopn Nat 2 3 1).sketchWidth (natHash 0) i ≠ j) →
          (UpdateCountMinSketch natHash (freshCmsTopn Nat 2 3 1) 0).1.sketch j
            = (freshCmsTopn Nat 2 3 1).sketch j)
      ∧ CmsTopnEstimateHashedItemFrequency
            (UpdateCountMinSketch natHash (freshCmsTopn Nat 2 3 1) 0).1 (natHash 0)
          = (UpdateCountMinSketch natHash (freshCmsTopn Nat 2 3 1) 0).2
      ∧ CmsTopnEstimateItemFrequency natHash
            (CmsTopnAddItem natHash (freshCmsTopn Nat 2 3 1) 0) 0
          = (UpdateCountMinSketch natHash (freshCmsTopn Nat 2 3 1) 0).2) :=
  ⟨by decide, updateCountMinSketch_spec natHash (freshCmsTopn Nat 2 3 1) 0 (by decide)⟩

/-- C2 (amended): on a freshly created sketch, after any sequence of adds
containing the item x fewer than 2 ^ 64 times, the estimate of x is at least
its count; and when no other added item shares any consulted counter with x
(and the depth is positive, as it is for every created sketch), the estimate
equals the count exactly. -/
theorem estimate_ge_count_spec {α : Type} [DecidableEq α] (hash : α → Nat × Nat)
    (D W N : Nat) (L : List α) (x : α)
    (hk : L.count x < 2 ^ 64) :
    L.count x ≤ CmsTopnEstimateItemFrequency hash (cmsAddSeq hash L (freshCmsTopn α D W N)) x
    ∧ (1 ≤ D →
        (∀ y ∈ L, y = x ∨ ∀ i i', i < D → i' < D →
          sketchCounterIndex W (hash y) i ≠ sketchCounterIndex W (hash x) i') →
        CmsTopnEstimateItemFrequency hash (cmsAddSeq hash L (freshCmsTopn α D W N)) x
          = L.count x) := by
  have hm : MAX_FREQUENCY = 2 ^ 64 - 1 := rfl
  constructor
  · have h := count_le_estimate_addSeq hash L (freshCmsTopn α D W N) x
    omega
  · intro hD hdisj
    rw [estimate_addSeq_isolated hash D W N L x hD hdisj]
    omega

/-- C2 counterexample: adding item 0 exactly 2 ^ 64 times to a fresh 1 x 3
sketch saturates the counters at MAX_FREQUENCY = 2 ^ 64 - 1, so the estimate
falls below the true count. -/
theorem estimate_ge_count_overflow_cex :
    ¬ ((List.replicate (2 ^ 64) (0 : Nat)).count 0
        ≤ CmsTopnEstimateItemFrequency natHash
            (cmsAddSeq natHash (List.replicate (2 ^ 64) (0 : Nat))
              (freshCmsTopn Nat 1 3 1)) 0) := by
  have hm : MAX_FREQUENCY = 2 ^ 64 - 1 := rfl
  have hiso := estimate_addSeq_isolated natHash 1 3 1 (List.replicate (2 ^ 64) (0 : Nat)) 0
    (le_refl 1) (fun y hy => Or.inl (List.eq_of_mem_replicate hy))
  have hcnt : (List.replicate (2 ^ 64) (0 : Nat)).count 0 = 2 ^ 64 :=
    List.count_replicate_self 0 (2 ^ 64)
  intro h
  rw [hiso, hcnt] at h
  omega

/-- C2 witness: adds [0, 0, 1] on a fresh 1 x 3 sketch, where items 0 and 1
consult the disjoint counters 0 and 1. -/
theorem estimate_ge_count_spec_witness :
    ([0, 0, 1] : List Nat).count 0 < 2 ^ 64
    ∧ ([0, 0, 1] : List Nat).count 0
        ≤ CmsTopnEstimateItemFrequency natHash
            (cmsAddSeq natHash [0, 0, 1] (freshCmsTopn Nat 1 3 1)) 0
    ∧ CmsTopnEstimateItemFrequency natHash
          (cmsAddSeq natHash [0, 0, 1] (freshCmsTopn Nat 1 3 1)) 0
        = ([0, 0, 1] : List Nat).count 0 := by
  have hdisj : ∀ y ∈ ([0, 0, 1] : List Nat), y = 0 ∨ ∀ i i', i < 1 → i' < 1 →
      sketchCounterIndex 3 (natHash y) i ≠ sketchCounterIndex 3 (natHash 0) i' := by
    intro y hy
    fin_cases hy
    · exact Or.inl rfl
    · exact Or.inl rfl
    · refine Or.inr ?_
      intro i i' hi hi'
      rw [Nat.lt_one_iff] at hi hi'
      subst hi; subst hi'
      decide
  have h := estimate_ge_count_spec natHash 1 3 1 [0, 0, 1] 0 (by decide)
  exact ⟨by decide, h.1, h.2 (by decide) hdisj⟩

/-- C4 (amended): for a tracker at capacity and a candidate not already
tracked, the rejection test compares the offered frequency with the STORED
minFrequencyOfTopnItems: an offer at or below the stored threshold changes
nothing and returns false (so eviction requires the offered frequency to
exceed the stored threshold), and the claim's capacity-1 example holds
because there the stored threshold coincides with the first offer's
frequency. -/
theorem updateTopnArray_tie_spec {α : Type} [DecidableEq α] (hash : α → Nat × Nat)
    (cmsTopn : CmsTopn α) (candidateItem : α) (itemFrequency : Nat)
    (hfull : cmsTopn.topnArray.length = cmsTopn.topnItemCount)
    (hsat : itemFrequency < MAX_FREQUENCY) :
    (itemFrequency ≤ cmsTopn.minFrequencyOfTopnItems →
      UpdateTopnArray hash cmsTopn candidateItem itemFrequency = (cmsTopn, false))
    ∧ ((UpdateTopnArray hash cmsTopn candidateItem itemFrequency).2 = true →
        cmsTopn.minFrequencyOfTopnItems < itemFrequency)
    ∧ UpdateTopnArray natHash capacityOneTracker 1 5 = (capacityOneTracker, false)
    ∧ capacityOneTracker.topnArray = [0]
    ∧ capacityOneTracker.minFrequencyOfTopnItems = 5 := by
  have hreject : itemFrequency ≤ cmsTopn.minFrequencyOfTopnItems →
      UpdateTopnArray hash cmsTopn candidateItem itemFrequency = (cmsTopn, false) := by
    intro hle
    have h1 : ¬ cmsTopn.topnArray.length < cmsTopn.topnItemCount := by omega
    have h2 : ¬ MAX_FREQUENCY ≤ itemFrequency := by omega
    simp [UpdateTopnArray, hle, h1, h2]
  refine ⟨hreject, ?_, by rfl, by decide, by decide⟩
  intro htrue
  by_contra hnot
  have hle : itemFrequency ≤ cmsTopn.minFrequencyOfTopnItems := Nat.le_of_not_lt hnot
  rw [hreject hle] at htrue
  simp at htrue

/-- C4 counterexample: a capacity-1 tracker whose stored threshold (5) has
gone stale below the live re-estimate of its tracked item (7).  Offering
untracked item 1 at frequency 7 — a tie with the minimum re-estimated
frequency among tracked items — does NOT leave the tracker unchanged: the
offer returns true and evicts item 0. -/
theorem updateTopnArray_tie_evicts_cex :
    staleTieTracker.topnArray.length = staleTieTracker.topnItemCount
    ∧ staleTieTracker.topnArray = [0]
    ∧ (1 : Nat) ∉ staleTieTracker.topnArray
    ∧ CmsTopnEstimateItemFrequency natHash staleTieTracker 0 = 7
    ∧ CmsTopnEstimateItemFrequency natHash staleTieTracker 1 = 7
    ∧ (UpdateTopnArray natHash staleTieTracker 1 7).2 = true
    ∧ (UpdateTopnArray natHash staleTieTracker 1 7).1.topnArray = [1] :=
  ⟨by decide, by decide, by decide, by decide, by decide, by decide, by decide⟩

/-- C4 witness: the claim's own capacity-1 scenario, offering untracked
item 1 at frequency 5 to capacityOneTracker (which stores {0 : 5} with
threshold 5). -/
theorem updateTopnArray_tie_spec_witness :
    capacityOneTracker.topnArray.length = capacityOneTracker.topnItemCount
    ∧ 5 < MAX_FREQUENCY
    ∧ ((5 ≤ capacityOneTracker.minFrequencyOfTopnItems →
        UpdateTopnArray natHash capacityOneTracker 1 5 = (capacityOneTracker, false))
      ∧ ((UpdateTopnArray natHash capacityOneTracker 1 5).2 = true →
          capacityOneTracker.minFrequencyOfTopnItems < 5)
      ∧ UpdateTopnArray natHash capacityOneTracker 1 5 = (capacityOneTracker, false)
      ∧ capacityOneTracker.topnArray = [0]
      ∧ capacityOneTracker.minFrequencyOfTopnItems = 5) :=
  ⟨by decide, by decide,
    updateTopnArray_tie_spec natHash capacityOneTracker 1 5 (by decide) (by decide)⟩

/-- C5 (amended): when an offer to a tracker at capacity evicts (candidate
untracked, frequency above the stored threshold, and at least the running
minimum of the re-estimated frequencies), the new stored
minFrequencyOfTopnItems equals the minimum re-estimated frequency over the
PRE-eviction tracked set — i.e. it includes the evicted item and excludes
the inserted candidate — and the threshold starts at MAX_FREQUENCY only on
a freshly created (empty) tracker. -/
theorem minFrequency_after_eviction {α : Type} [DecidableEq α] (hash : α → Nat × Nat)
    (cmsTopn : CmsTopn α) (candidateItem : α) (itemFrequency : Nat)
    (hfull : cmsTopn.topnArray.length = cmsTopn.topnItemCount)
    (hnotin : ∀ y ∈ cmsTopn.topnArray, y ≠ candidateItem)
    (hgt : cmsTopn.minFrequencyOfTopnItems < itemFrequency)
    (hmin : cmsTopn.topnArray.foldl
        (fun m y => min m (CmsTopnEstimateItemFrequency hash cmsTopn y)) MAX_FREQUENCY
      ≤ itemFrequency) :
    (UpdateTopnArray hash cmsTopn candidateItem itemFrequency).2 = true
    ∧ (UpdateTopnArray hash cmsTopn candidateItem itemFrequency).1.minFrequencyOfTopnItems
        = cmsTopn.topnArray.foldl
            (fun m y => min m (CmsTopnEstimateItemFrequency hash cmsTopn y)) MAX_FREQUENCY
    ∧ ∀ D W n, (freshCmsTopn Nat D W n).minFrequencyOfTopnItems = MAX_FREQUENCY := by
  have hscan := scanTopn_not_found hash cmsTopn candidateItem cmsTopn.topnArray 1
    MAX_FREQUENCY 1 hnotin
  have hnle : ¬ itemFrequency ≤ cmsTopn.minFrequencyOfTopnItems := by omega
  have hcond : ¬ ((_scanTopn hash cmsTopn candidateItem cmsTopn.topnArray 1
        MAX_FREQUENCY 1).2.2 = false
      ∧ cmsTopn.topnArray.length < cmsTopn.topnItemCount) :=
    fun h => absurd h.2 (by omega)
  have hfin : (_scanTopn hash cmsTopn candidateItem cmsTopn.topnArray 1
        MAX_FREQUENCY 1).2.2 = false
      ∧ (_scanTopn hash cmsTopn candidateItem cmsTopn.topnArray 1
        MAX_FREQUENCY 1).1 ≤ itemFrequency :=
    ⟨hscan.2, by rw [hscan.1]; exact hmin⟩
  refine ⟨?_, ?_, fun D W n => rfl⟩
  · simp only [UpdateTopnArray]
    rw [if_neg hnle, if_neg hcond, if_pos hfin]
  · simp only [UpdateTopnArray]
    rw [if_neg hnle, if_neg hcond, if_pos hfin]
    exact hscan.1

/-- C5 counterexample: evictionTracker holds item 0 (re-estimate 3, stored
threshold 3) at capacity 1 while item 1 re-estimates to 10.  Offering item 1
at frequency 10 evicts item 0, yet the new threshold is 3 — the evicted
item's frequency — not 10, the minimum over the surviving set.  Moreover the
threshold is not unbounded below capacity: a first insert into a capacity-2
tracker leaves it below capacity with threshold 5, not MAX_FREQUENCY. -/
theorem minFrequency_surviving_min_cex :
    evictionTracker.topnArray.length = evictionTracker.topnItemCount
    ∧ (UpdateTopnArray natHash evictionTracker 1 10).2 = true
    ∧ (UpdateTopnArray natHash evictionTracker 1 10).1.topnArray = [1]
    ∧ (UpdateTopnArray natHash evictionTracker 1 10).1.minFrequencyOfTopnItems = 3
    ∧ CmsTopnEstimateItemFrequency natHash
        (UpdateTopnArray natHash evictionTracker 1 10).1 1 = 10
    ∧ (UpdateTopnArray natHash evictionTracker 1 10).1.minFrequencyOfTopnItems
        ≠ CmsTopnEstimateItemFrequency natHash
            (UpdateTopnArray natHash evictionTracker 1 10).1 1
    ∧ (UpdateTopnArray natHash (freshCmsTopn Nat 1 3 2) 0 5).1.topnArray.length
        < (freshCmsTopn Nat 1 3 2).topnItemCount
    ∧ (UpdateTopnArray natHash (freshCmsTopn Nat 1 3 2) 0 5).1.minFrequencyOfTopnItems = 5
    ∧ (UpdateTopnArray natHash (freshCmsTopn Nat 1 3 2) 0 5).1.minFrequencyOfTopnItems
        ≠ MAX_FREQUENCY :=
  ⟨by decide, by decide, by decide, by decide, by decide, by decide, by decide,
    by decide, by decide⟩

/-- C5 witness: the eviction of item 0 from evictionTracker by item 1
offered at frequency 10. -/
theorem minFrequency_after_eviction_witness :
    evictionTracker.topnArray.length = evictionTracker.topnItemCount
    ∧ (∀ y ∈ evictionTracker.topnArray, y ≠ 1)
    ∧ evictionTracker.minFrequencyOfTopnItems < 10
    ∧ ((UpdateTopnArray natHash evictionTracker 1 10).2 = true
      ∧ (UpdateTopnArray natHash evictionTracker 1 10).1.minFrequencyOfTopnItems
          = evictionTracker.topnArray.foldl
              (fun m y => min m (CmsTopnEstimateItemFrequency natHash evictionTracker y))
              MAX_FREQUENCY
      ∧ ∀ D W n, (freshCmsTopn Nat D W n).minFrequencyOfTopnItems = MAX_FREQUENCY) :=
  ⟨by decide, by decide, by decide,
    minFrequency_after_eviction natHash evictionTracker 1 10 (by decide) (by decide)
      (by decide) (by decide)⟩

/-- The all-ones 64-bit mask has 64 set bits. -/
theorem countSetBits_MAX : _countSetBits MAX_FREQUENCY = 64 := by decide

/-- The inner helper _updateMmsInPlace, for whatever mask value reaches it:
it computes the estimate as a consulted cell of minimum popcount (it is one
of the D consulted cells and its popcount is at most each of theirs), ORs
the received mask onto it, replaces each consulted cell by the new mask
exactly when the new mask has strictly more set bits, leaves every other
cell unchanged, and returns the new mask; adding masks 0b01 then 0b10 for
the same item yields an estimate of popcount 2. -/
theorem updateMmsInPlace_inner_spec {α : Type} (hash : α → Nat × Nat) (mms : MinMaskSketch)
    (x : α) (newItemMask : Nat)
    (hD : 0 < mms.sketchDepth)
    (hbound : ∀ j, mms.sketch j < 2 ^ 64) :
    (_updateMmsInPlace hash mms x newItemMask).2
        = _mmsEstimateHashedItemMask mms (hash x) ||| newItemMask
    ∧ (∃ i, i < mms.sketchDepth ∧ _mmsEstimateHashedItemMask mms (hash x)
          = mms.sketch (sketchCounterIndex mms.sketchWidth (hash x) i))
    ∧ (∀ i, i < mms.sketchDepth →
        _countSetBits (_mmsEstimateHashedItemMask mms (hash x))
          ≤ _countSetBits (mms.sketch (sketchCounterIndex mms.sketchWidth (hash x) i)))
    ∧ (∀ i, i < mms.sketchDepth →
        (_updateMmsInPlace hash mms x newItemMask).1.sketch
            (sketchCounterIndex mms.sketchWidth (hash x) i)
          = if _countSetBits (mms.sketch (sketchCounterIndex mms.sketchWidth (hash x) i))
                < _countSetBits (_mmsEstimateHashedItemMask mms (hash x) ||| newItemMask)
            then _mmsEstimateHashedItemMask mms (hash x) ||| newItemMask
            else mms.sketch (sketchCounterIndex mms.sketchWidth (hash x) i))
    ∧ (∀ j, (∀ i, i < mms.sketchDepth →
          sketchCounterIndex mms.sketchWidth (hash x) i ≠ j) →
        (_updateMmsInPlace hash mms x newItemMask).1.sketch j = mms.sketch j)
    ∧ _countSetBits (_mmsEstimateItemMask natHash
          ((_updateMmsInPlace natHash
            ((_updateMmsInPlace natHash mmsExample 0 1).1) 0 2).1) 0)
        = 2 := by
  have hle := foldlArgmin_le
    (fun i => mms.sketch (sketchCounterIndex mms.sketchWidth (hash x) i))
    (List.range mms.sketchDepth) MAX_FREQUENCY
  have hestle : ∀ i, i < mms.sketchDepth →
      _countSetBits (_mmsEstimateHashedItemMask mms (hash x))
        ≤ _countSetBits (mms.sketch (sketchCounterIndex mms.sketchWidth (hash x) i)) :=
    fun i hi => hle.2 i (List.mem_range.mpr hi)
  have hex : ∃ i, i < mms.sketchDepth ∧ _mmsEstimateHashedItemMask mms (hash x)
      = mms.sketch (sketchCounterIndex mms.sketchWidth (hash x) i) := by
    rcases foldlArgmin_init_or_mem
        (fun i => mms.sketch (sketchCounterIndex mms.sketchWidth (hash x) i))
        (List.range mms.sketchDepth) MAX_FREQUENCY with h | ⟨i, hi, h⟩
    · have hest : _mmsEstimateHashedItemMask mms (hash x) = MAX_FREQUENCY := h
      refine ⟨0, hD, ?_⟩
      have h0 := hestle 0 hD
      rw [hest, countSetBits_MAX] at h0
      have hb := countSetBits_bound 64
        (mms.sketch (sketchCounterIndex mms.sketchWidth (hash x) 0)) (hbound _)
      have h64 : _countSetBits
          (mms.sketch (sketchCounterIndex mms.sketchWidth (hash x) 0)) = 64 :=
        le_antisymm hb.1 h0
      rw [hest, hb.2 h64]
      rfl
    · exact ⟨i, List.mem_range.mp hi, h⟩
  refine ⟨rfl, hex, hestle, ?_, ?_, by decide⟩
  · intro i hi
    have hupd := foldlUpdateMask_apply
      (fun i => sketchCounterIndex mms.sketchWidth (hash x) i)
      (_mmsEstimateHashedItemMask mms (hash x) ||| newItemMask)
      (List.range mms.sketchDepth) mms.sketch
      (sketchCounterIndex mms.sketchWidth (hash x) i)
    simp only [List.mem_range] at hupd
    rw [if_pos (show ∃ i', i' < mms.sketchDepth
        ∧ sketchCounterIndex mms.sketchWidth (hash x) i'
          = sketchCounterIndex mms.sketchWidth (hash x) i from ⟨i, hi, rfl⟩)] at hupd
    exact hupd
  · intro j hj
    have hupd := foldlUpdateMask_apply
      (fun i => sketchCounterIndex mms.sketchWidth (hash x) i)
      (_mmsEstimateHashedItemMask mms (hash x) ||| newItemMask)
      (List.range mms.sketchDepth) mms.sketch j
    simp only [List.mem_range] at hupd
    rw [if_neg (show ¬ ∃ i', i' < mms.sketchDepth
        ∧ sketchCounterIndex mms.sketchWidth (hash x) i' = j from
        fun h => by obtain ⟨i', hi', he⟩ := h; exact hj i' hi' he)] at hupd
    exact hupd

/-- C8 (amended): the user-facing mms_add reads the 64-bit mask argument
through a uint32 local, so only m mod 2 ^ 32 reaches the sketch.  Under that
truncation the claimed behaviour holds: the estimate is a consulted cell of
minimum popcount, add ORs m mod 2 ^ 32 onto it, replaces each consulted cell
exactly when the new mask has strictly more set bits, leaves every other
cell unchanged, and returns the new mask; mms_add is indistinguishable from
adding m mod 2 ^ 32, and the claim's example holds since masks 0b01 and 0b10
survive the truncation: adding them for the same item makes the user-visible
estimate a mask of popcount 2. -/
theorem mms_add_spec {α : Type} (hash : α → Nat × Nat) (mms : MinMaskSketch)
    (x : α) (newItemMask : Nat)
    (hD : 0 < mms.sketchDepth)
    (hbound : ∀ j, mms.sketch j < 2 ^ 64) :
    (mms_add hash mms x newItemMask).2
        = _mmsEstimateHashedItemMask mms (hash x) ||| (newItemMask % 2 ^ 32)
    ∧ (∃ i, i < mms.sketchDepth ∧ _mmsEstimateHashedItemMask mms (hash x)
          = mms.sketch (sketchCounterIndex mms.sketchWidth (hash x) i))
    ∧ (∀ i, i < mms.sketchDepth →
        _countSetBits (_mmsEstimateHashedItemMask mms (hash x))
          ≤ _countSetBits (mms.sketch (sketchCounterIndex mms.sketchWidth (hash x) i)))
    ∧ (∀ i, i < mms.sketchDepth →
        (mms_add hash mms x newItemMask).1.sketch
            (sketchCounterIndex mms.sketchWidth (hash x) i)
          = if _countSetBits (mms.sketch (sketchCounterIndex mms.sketchWidth (hash x) i))
                < _countSetBits
                  (_mmsEstimateHashedItemMask mms (hash x) ||| (newItemMask % 2 ^ 32))
            then _mmsEstimateHashedItemMask mms (hash x) ||| (newItemMask % 2 ^ 32)
            else mms.sketch (sketchCounterIndex mms.sketchWidth (hash x) i))
    ∧ (∀ j, (∀ i, i < mms.sketchDepth →
          sketchCounterIndex mms.sketchWidth (hash x) i ≠ j) →
        (mms_add hash mms x newItemMask).1.sketch j = mms.sketch j)
    ∧ mms_add hash mms x newItemMask = mms_add hash mms x (newItemMask % 2 ^ 32)
    ∧ _countSetBits (mms_get_mask natHash
          ((mms_add natHash ((mms_add natHash mmsExample 0 1).1) 0 2).1) 0)
        = 2 := by
  have h := updateMmsInPlace_inner_spec hash mms x (newItemMask % 2 ^ 32) hD hbound
  have htrunc : mms_add hash mms x newItemMask
      = mms_add hash mms x (newItemMask % 2 ^ 32) := by
    show _updateMmsInPlace hash mms x (newItemMask % 2 ^ 32)
        = _updateMmsInPlace hash mms x (newItemMask % 2 ^ 32 % 2 ^ 32)
    rw [Nat.mod_mod_of_dvd newItemMask dvd_rfl]
  exact ⟨h.1, h.2.1, h.2.2.1, h.2.2.2.1, h.2.2.2.2.1, htrunc, by decide⟩

/-- C8 counterexample: mms_add discards bits 32..63 of the mask argument.
Adding item 0 with mask 2 ^ 32 to a fresh sketch ORs only 0: the call
returns 0 instead of the claimed newMask = estimate ||| 2 ^ 32, and even
though that claimed newMask has strictly more set bits than the consulted
cell (so the claim would replace it), the cell stays 0 and the re-estimated
mask afterwards still lacks bit 32. -/
theorem mms_add_mask_truncation_cex :
    (mms_add natHash mmsExample 0 (2 ^ 32)).2 = 0
    ∧ (mms_add natHash mmsExample 0 (2 ^ 32)).2
        ≠ _mmsEstimateHashedItemMask mmsExample (natHash 0) ||| 2 ^ 32
    ∧ _countSetBits (mmsExample.sketch 0)
        < _countSetBits (_mmsEstimateHashedItemMask mmsExample (natHash 0) ||| 2 ^ 32)
    ∧ sketchCounterIndex mmsExample.sketchWidth (natHash 0) 0 = 0
    ∧ (mms_add natHash mmsExample 0 (2 ^ 32)).1.sketch 0 = 0
    ∧ (mms_add natHash mmsExample 0 (2 ^ 32)).1.sketch 0
        ≠ _mmsEstimateHashedItemMask mmsExample (natHash 0) ||| 2 ^ 32
    ∧ mms_get_mask natHash (mms_add natHash mmsExample 0 (2 ^ 32)).1 0 = 0 :=
  ⟨by decide, by decide, by decide, by decide, by decide, by decide, by decide⟩

/-- C8 witness: the amended theorem at a fresh 2 x 3 min-mask sketch,
item 0, mask 2 ^ 32 + 1 (which the add path truncates to 1). -/
theorem mms_add_spec_witness :
    0 < mmsExample.sketchDepth
    ∧ ((mms_add natHash mmsExample 0 (2 ^ 32 + 1)).2
          = _mmsEstimateHashedItemMask mmsExample (natHash 0) ||| ((2 ^ 32 + 1) % 2 ^ 32)
      ∧ (∃ i, i < mmsExample.sketchDepth ∧ _mmsEstimateHashedItemMask mmsExample (natHash 0)
            = mmsExample.sketch (sketchCounterIndex mmsExample.sketchWidth (natHash 0) i))
      ∧ (∀ i, i < mmsExample.sketchDepth →
          _countSetBits (_mmsEstimateHashedItemMask mmsExample (natHash 0))
            ≤ _countSetBits
                (mmsExample.sketch (sketchCounterIndex mmsExample.sketchWidth (natHash 0) i)))
      ∧ (∀ i, i < mmsExample.sketchDepth →
          (mms_add natHash mmsExample 0 (2 ^ 32 + 1)).1.sketch
              (sketchCounterIndex mmsExample.sketchWidth (natHash 0) i)
            = if _countSetBits
                  (mmsExample.sketch (sketchCounterIndex mmsExample.sketchWidth (natHash 0) i))
                  < _countSetBits (_mmsEstimateHashedItemMask mmsExample (natHash 0)
                      ||| ((2 ^ 32 + 1) % 2 ^ 32))
              then _mmsEstimateHashedItemMask mmsExample (natHash 0)
                  ||| ((2 ^ 32 + 1) % 2 ^ 32)
              else mmsExample.sketch (sketchCounterIndex mmsExample.sketchWidth (natHash 0) i))
      ∧ (∀ j, (∀ i, i < mmsExample.sketchDepth →
            sketchCounterIndex mmsExample.sketchWidth (natHash 0) i ≠ j) →
          (mms_add natHash mmsExample 0 (2 ^ 32 + 1)).1.sketch j = mmsExample.sketch j)
      ∧ mms_add natHash mmsExample 0 (2 ^ 32 + 1)
          = mms_add natHash mmsExample 0 ((2 ^ 32 + 1) % 2 ^ 32)
      ∧ _countSetBits (mms_get_mask natHash
            ((mms_add natHash ((mms_add natHash mmsExample 0 1).1) 0 2).1) 0)
          = 2) :=
  ⟨by decide, mms_add_spec natHash mmsExample 0 (2 ^ 32 + 1) (by decide)
    (fun j => show (0 : Nat) < 2 ^ 64 by decide)⟩
